import Mathlib

/-!
Verification of the incentive-analysis engine of the copy-financial repository.

The JavaScript sources are shallowly embedded: JS Map objects become
association lists in insertion order (the order JS Maps iterate in), JS
numbers become rationals, machine timestamps become integers, and fallible
calls return Except values.  Each definition mirrors one source function;
the theorems at the end of the file settle the frozen claims about the
specification.
-/

namespace CacheJS

/-- One stored cache item, as built by CacheManager.set in
src/services/utils/cache.js: the value plus absolute expiry and creation
timestamps. -/
structure Entry (α : Type) where
  value : α
  expiresAt : Int
  createdAt : Int
deriving DecidableEq

/-- The underlying JS Map of the cache, as an association list in the Map's
insertion/iteration order.  The head is the first (least recently used)
entry; appending is inserting at the most-recently-used position. -/
abbrev Store (α : Type) := List (String × Entry α)

/-- Map.get: return the entry stored under the key, if any. -/
def mapGet {α : Type} (k : String) : Store α → Option (Entry α)
  | [] => none
  | (k', e) :: rest => if k' = k then some e else mapGet k rest

/-- Map.set: JS Maps update an existing key in place, keeping its position
in the iteration order; a new key is appended at the end. -/
def mapSet {α : Type} (k : String) (e : Entry α) : Store α → Store α
  | [] => [(k, e)]
  | (k', e') :: rest => if k' = k then (k', e) :: rest else (k', e') :: mapSet k e rest

/-- Map.delete: remove the entry stored under the key, if any. -/
def mapDelete {α : Type} (k : String) : Store α → Store α
  | [] => []
  | (k', e') :: rest => if k' = k then rest else (k', e') :: mapDelete k rest

/-- The keys of the store, in iteration order. -/
def keys {α : Type} (s : Store α) : List String := s.map Prod.fst

/-- State of a CacheManager instance: its Map and its maxSize field.  The
constructor fixes maxSize to 1000. -/
structure CacheManager (α : Type) where
  cache : Store α
  maxSize : Nat
deriving DecidableEq

/-- The constructor of CacheManager: empty map, maxSize 1000. -/
def CacheManager.new (α : Type) : CacheManager α := { cache := [], maxSize := 1000 }

/-- CacheManager.set: if the map already holds maxSize or more items, the
first key of the Map (this.cache.keys().next().value) is deleted — that is
exactly the head of the list — and then Map.set stores the value with
expiresAt = now + ttl and createdAt = now.  (When the map is empty the
first key is undefined and the delete is a no-op, which List.tail also
models.) -/
def CacheManager.set {α : Type} (s : CacheManager α) (k : String) (v : α)
    (ttl : Int) (now : Int) : CacheManager α :=
  let s1 : Store α := if s.maxSize ≤ s.cache.length then s.cache.tail else s.cache
  { s with cache := mapSet k { value := v, expiresAt := now + ttl, createdAt := now } s1 }

/-- CacheManager.get at the given current time: a missing key is a miss; an
entry with now strictly past its expiresAt is deleted and reported as a
miss; otherwise the entry is deleted and re-inserted (moved to the
most-recently-used position) and its value returned.  Returns the result
together with the state after the call. -/
def CacheManager.get {α : Type} (s : CacheManager α) (k : String) (now : Int) :
    Option α × CacheManager α :=
  match mapGet k s.cache with
  | none => (none, s)
  | some item =>
    if item.expiresAt < now then
      (none, { s with cache := mapDelete k s.cache })
    else
      (some item.value, { s with cache := mapSet k item (mapDelete k s.cache) })

/-- CacheManager.has: implemented in the source as this.get(key) !== null,
so it runs the full get — including its mutations. -/
def CacheManager.has {α : Type} (s : CacheManager α) (k : String) (now : Int) :
    Bool × CacheManager α :=
  let r := s.get k now
  (r.1.isSome, r.2)

/-- CacheManager.delete: passthrough to Map.delete, returning whether the
key was present (the boolean JS Map.delete returns). -/
def CacheManager.delete {α : Type} (s : CacheManager α) (k : String) :
    Bool × CacheManager α :=
  ((mapGet k s.cache).isSome, { s with cache := mapDelete k s.cache })

/-- CacheManager.clear: passthrough to Map.clear. -/
def CacheManager.clear {α : Type} (s : CacheManager α) : CacheManager α :=
  { s with cache := [] }

/-- Folding CacheManager.set over a list of keys (used to state the
capacity+1 insertion scenario). -/
def CacheManager.setAll {α : Type} (s : CacheManager α) (v : α) (ttl now : Int)
    (ks : List String) : CacheManager α :=
  ks.foldl (fun s k => s.set k v ttl now) s

theorem mapGet_mapSet_self {α : Type} (k : String) (e : Entry α) (l : Store α) :
    mapGet k (mapSet k e l) = some e := by
  induction l with
  | nil => simp [mapSet, mapGet]
  | cons p rest ih =>
    obtain ⟨k', e'⟩ := p
    by_cases h : k' = k <;> simp [mapSet, mapGet, h, ih]

theorem mapGet_mapSet_ne {α : Type} {k k' : String} (h : k' ≠ k) (e : Entry α)
    (l : Store α) : mapGet k' (mapSet k e l) = mapGet k' l := by
  induction l with
  | nil => simp [mapSet, mapGet, Ne.symm h]
  | cons p rest ih =>
    obtain ⟨k0, e0⟩ := p
    by_cases h0 : k0 = k
    · subst h0
      simp [mapSet, mapGet, Ne.symm h]
    · simp [mapSet, mapGet, h0, ih]

theorem mapSet_of_not_mem {α : Type} {k : String} {l : Store α} (h : k ∉ keys l)
    (e : Entry α) : mapSet k e l = l ++ [(k, e)] := by
  induction l with
  | nil => simp [mapSet]
  | cons p rest ih =>
    obtain ⟨k', e'⟩ := p
    simp only [keys, List.map_cons, List.mem_cons] at h
    push_neg at h
    simp [mapSet, Ne.symm h.1, ih (by simpa [keys] using h.2)]

theorem keys_mapSet_of_mem {α : Type} {k : String} {l : Store α} (h : k ∈ keys l)
    (e : Entry α) : keys (mapSet k e l) = keys l := by
  induction l with
  | nil => simp [keys] at h
  | cons p rest ih =>
    obtain ⟨k', e'⟩ := p
    by_cases h0 : k' = k
    · simp [mapSet, h0, keys]
    · simp only [keys, List.map_cons, List.mem_cons] at h
      rcases h with h | h
      · exact absurd h.symm h0
      · have hrec := ih (by simpa [keys] using h)
        simp only [keys] at hrec ⊢
        simp [mapSet, h0, hrec]

theorem mapGet_eq_none_of_not_mem {α : Type} {k : String} {l : Store α}
    (h : k ∉ keys l) : mapGet k l = none := by
  induction l with
  | nil => simp [mapGet]
  | cons p rest ih =>
    obtain ⟨k', e'⟩ := p
    simp only [keys, List.map_cons, List.mem_cons] at h
    push_neg at h
    simp [mapGet, Ne.symm h.1, ih (by simpa [keys] using h.2)]

theorem keys_mapDelete_sublist {α : Type} (k : String) (l : Store α) :
    (keys (mapDelete k l)).Sublist (keys l) := by
  induction l with
  | nil => simp [mapDelete]
  | cons p rest ih =>
    obtain ⟨k', e'⟩ := p
    by_cases h0 : k' = k
    · simp only [mapDelete, h0, if_pos rfl, keys, List.map_cons]
      exact (List.sublist_cons_of_sublist _ (List.Sublist.refl _))
    · simpa [mapDelete, h0, keys] using ih.cons₂ k'

theorem not_mem_keys_mapDelete {α : Type} {k : String} {l : Store α}
    (h : (keys l).Nodup) : k ∉ keys (mapDelete k l) := by
  induction l with
  | nil => simp [mapDelete, keys]
  | cons p rest ih =>
    obtain ⟨k', e'⟩ := p
    simp only [keys, List.map_cons, List.nodup_cons] at h
    by_cases h0 : k' = k
    · subst h0
      simpa [mapDelete, keys] using h.1
    · intro hmem
      simp only [mapDelete, if_neg h0, keys, List.map_cons, List.mem_cons] at hmem
      rcases hmem with hmem | hmem
      · exact h0 hmem.symm
      · exact ih h.2 hmem

theorem mapGet_mapDelete_self {α : Type} {k : String} {l : Store α}
    (h : (keys l).Nodup) : mapGet k (mapDelete k l) = none :=
  mapGet_eq_none_of_not_mem (not_mem_keys_mapDelete h)

theorem mapGet_mapDelete_ne {α : Type} {k k' : String} (h : k' ≠ k) (l : Store α) :
    mapGet k' (mapDelete k l) = mapGet k' l := by
  induction l with
  | nil => simp [mapDelete]
  | cons p rest ih =>
    obtain ⟨k0, e0⟩ := p
    by_cases h0 : k0 = k
    · subst h0
      simp [mapDelete, mapGet, Ne.symm h]
    · simp [mapDelete, mapGet, h0, ih]

theorem keys_nodup_tail {α : Type} {l : Store α} (h : (keys l).Nodup) :
    (keys l.tail).Nodup := by
  cases l with
  | nil => simpa using h
  | cons p rest =>
    simp only [keys, List.map_cons, List.nodup_cons] at h
    simpa [keys] using h.2

theorem keys_nodup_mapSet {α : Type} {k : String} {l : Store α}
    (h : (keys l).Nodup) (e : Entry α) : (keys (mapSet k e l)).Nodup := by
  by_cases hm : k ∈ keys l
  · rw [keys_mapSet_of_mem hm]; exact h
  · rw [mapSet_of_not_mem hm]
    have hkeys : keys (l ++ [(k, e)]) = keys l ++ [k] := by simp [keys]
    rw [hkeys]
    refine List.Nodup.append h (List.nodup_singleton k) ?_
    intro a ha hb
    simp only [List.mem_singleton] at hb
    subst hb
    exact hm ha

theorem mapGet_isSome_iff {α : Type} (k : String) (l : Store α) :
    (mapGet k l).isSome = true ↔ k ∈ keys l := by
  induction l with
  | nil => simp [mapGet, keys]
  | cons p rest ih =>
    obtain ⟨k', e'⟩ := p
    by_cases h0 : k' = k
    · simp [mapGet, keys, h0]
    · simp only [mapGet, if_neg h0, keys, List.map_cons, List.mem_cons]
      constructor
      · intro h
        exact Or.inr (ih.mp h)
      · rintro (h | h)
        · exact absurd h.symm h0
        · exact ih.mpr h

theorem set_cache_eq {α : Type} (s : CacheManager α) (k : String) (v : α)
    (ttl now : Int) :
    (s.set k v ttl now).cache =
      mapSet k ⟨v, now + ttl, now⟩
        (if s.maxSize ≤ s.cache.length then s.cache.tail else s.cache) := rfl

theorem get_hit {α : Type} {s : CacheManager α} {k : String} {now : Int}
    {e : Entry α} (h : mapGet k s.cache = some e) (hle : ¬ e.expiresAt < now) :
    s.get k now = (some e.value, { s with cache := mapSet k e (mapDelete k s.cache) }) := by
  simp [CacheManager.get, h, hle]

theorem get_expired {α : Type} {s : CacheManager α} {k : String} {now : Int}
    {e : Entry α} (h : mapGet k s.cache = some e) (hlt : e.expiresAt < now) :
    s.get k now = (none, { s with cache := mapDelete k s.cache }) := by
  simp [CacheManager.get, h, hlt]

theorem setAll_fresh {α : Type} (v : α) (ttl now : Int) :
    ∀ (ks : List String) (s : CacheManager α),
      (keys s.cache ++ ks).Nodup → s.cache.length + ks.length ≤ s.maxSize →
      (s.setAll v ttl now ks).cache
          = s.cache ++ ks.map (fun k => (k, ⟨v, now + ttl, now⟩))
        ∧ (s.setAll v ttl now ks).maxSize = s.maxSize := by
  intro ks
  induction ks with
  | nil => intro s _ _; simp [CacheManager.setAll]
  | cons k ks ih =>
    intro s hnd hlen
    have hk : k ∉ keys s.cache := by
      intro hmem
      have := (List.nodup_append.mp hnd).2.2
      exact this hmem (by simp)
    have hlt : ¬ s.maxSize ≤ s.cache.length := by
      simp only [List.length_cons] at hlen
      omega
    have hstep : (s.set k v ttl now).cache = s.cache ++ [(k, ⟨v, now + ttl, now⟩)] := by
      rw [set_cache_eq, if_neg hlt, mapSet_of_not_mem hk]
    have hstepMax : (s.set k v ttl now).maxSize = s.maxSize := rfl
    have hrec := ih (s.set k v ttl now)
      (by
        rw [hstep]
        have : keys (s.cache ++ [(k, ⟨v, now + ttl, now⟩)]) ++ ks
            = keys s.cache ++ (k :: ks) := by simp [keys]
        rw [this]
        exact hnd)
      (by
        rw [hstep, hstepMax]
        simp only [List.length_append, List.length_cons, List.length_nil] at hlen ⊢
        omega)
    have hunfold : (s.setAll v ttl now (k :: ks))
        = ((s.set k v ttl now).setAll v ttl now ks) := rfl
    refine ⟨?_, by rw [hunfold, hrec.2, hstepMax]⟩
    rw [hunfold, hrec.1, hstep]
    simp

end CacheJS

namespace CacheJS

/-- Claim C1 counterexample: the claim says that once elapsed time since
the set is at least ttl, get returns a miss.  The code only misses when
now is strictly past expiresAt, so with ttl = 5, a set at time 0 and a get
at time 5 (elapsed = ttl) still returns the value. -/
theorem claim_C1_counterexample :
    (5 : Int) - 0 ≥ 5
    ∧ (((CacheManager.new Nat).set "k" 7 5 0).get "k" 5).1 = some 7 := by
  decide

/-- Claim C1 as amended by the counterexample: immediately after
set(k, v, ttl) with ttl > 0, get(k) returns v; once elapsed time since the
set STRICTLY exceeds ttl, get(k) returns a miss and the entry is deleted;
and no get on any cache state ever returns a value at a time strictly past
the entry's expiry. -/
theorem claim_C1_ttl_expiry {α : Type} (s : CacheManager α) (k : String) (v : α)
    (ttl t0 t : Int) (hnd : (keys s.cache).Nodup) (httl : 0 < ttl) :
    (((s.set k v ttl t0).get k t0).1 = some v)
    ∧ (t0 + ttl < t →
        ((s.set k v ttl t0).get k t).1 = none
        ∧ mapGet k ((s.set k v ttl t0).get k t).2.cache = none)
    ∧ (∀ (s' : CacheManager α) (k' : String) (t' : Int) (v' : α),
        (s'.get k' t').1 = some v' →
        ∃ e, mapGet k' s'.cache = some e ∧ e.value = v' ∧ t' ≤ e.expiresAt) := by
  have hnd1 : (keys (if s.maxSize ≤ s.cache.length then s.cache.tail else s.cache)).Nodup := by
    split
    · exact keys_nodup_tail hnd
    · exact hnd
  have hget : mapGet k (s.set k v ttl t0).cache = some ⟨v, t0 + ttl, t0⟩ := by
    rw [set_cache_eq]; exact mapGet_mapSet_self _ _ _
  refine ⟨?_, ?_, ?_⟩
  · have hle : ¬ (⟨v, t0 + ttl, t0⟩ : Entry α).expiresAt < t0 := by
      simp only [not_lt]; omega
    rw [get_hit hget hle]
  · intro hlt
    have hlt' : (⟨v, t0 + ttl, t0⟩ : Entry α).expiresAt < t := hlt
    rw [get_expired hget hlt']
    refine ⟨rfl, ?_⟩
    have : (keys (s.set k v ttl t0).cache).Nodup := by
      rw [set_cache_eq]; exact keys_nodup_mapSet hnd1 _
    exact mapGet_mapDelete_self this
  · intro s' k' t' v' hret
    rcases hm : mapGet k' s'.cache with _ | e
    · simp [CacheManager.get, hm] at hret
    · by_cases hexp : e.expiresAt < t'
      · rw [get_expired hm hexp] at hret
        simp at hret
      · rw [get_hit hm hexp] at hret
        have hv : e.value = v' := Option.some_inj.mp hret
        exact ⟨e, rfl, hv, not_lt.mp hexp⟩

/-- Witness for claim C1: concrete instantiation of the amended theorem at
an empty cache, key "k", value 7, ttl 5, set time 0, read time 9. -/
theorem claim_C1_ttl_expiry_witness :
    ((keys (CacheManager.new Nat).cache).Nodup ∧ (0 : Int) < 5)
    ∧ ((((CacheManager.new Nat).set "k" 7 5 0).get "k" 0).1 = some 7
       ∧ ((0 : Int) + 5 < 9 →
            ((((CacheManager.new Nat).set "k" 7 5 0).get "k" 9).1 = none
            ∧ mapGet "k" ((((CacheManager.new Nat).set "k" 7 5 0).get "k" 9)).2.cache = none))
       ∧ (∀ (s' : CacheManager Nat) (k' : String) (t' : Int) (v' : Nat),
            (s'.get k' t').1 = some v' →
            ∃ e, mapGet k' s'.cache = some e ∧ e.value = v' ∧ t' ≤ e.expiresAt)) :=
  ⟨⟨by decide, by decide⟩,
    claim_C1_ttl_expiry (CacheManager.new Nat) "k" 7 5 0 9 (by decide) (by decide)⟩

/-- Claim C3 counterexample: the claim says set places the entry at the
most-recently-used position even when the key already exists.  JS Map.set
updates an existing key in place: with the store holding keys a then b
(below capacity), set("a", ...) leaves the order [a, b], so "a" is not at
the most-recently-used (last) position. -/
theorem claim_C3_counterexample :
    keys ((⟨[("a", ⟨1, 100, 0⟩), ("b", ⟨2, 100, 0⟩)], 1000⟩ :
        CacheManager Nat).set "a" 9 5 0).cache = ["a", "b"]
    ∧ ["a", "b"].getLast? ≠ some "a" := by
  decide

/-- Claim C3 as amended by the counterexample: set stores the value with
absolute expiry now + ttl; a NEW key is inserted at the most-recently-used
position; an EXISTING key is updated in place, keeping its recency
position; when the store is at capacity the head (least-recently-used)
entry is evicted first, and exactly one entry is evicted; inserting
capacity + 1 distinct keys into an empty cache of positive capacity evicts
exactly the least-recently-used (first-inserted) key. -/
theorem claim_C3_set_lru {α : Type} (s : CacheManager α) (k : String) (v : α)
    (ttl now : Int) (n : Nat) (ks : List String)
    (hn : 0 < n) (hks : ks.Nodup) (hlen : ks.length = n + 1) :
    (mapGet k (s.set k v ttl now).cache = some ⟨v, now + ttl, now⟩)
    ∧ (k ∉ keys s.cache → s.cache.length < s.maxSize →
        (s.set k v ttl now).cache = s.cache ++ [(k, ⟨v, now + ttl, now⟩)])
    ∧ (k ∉ keys s.cache → s.maxSize ≤ s.cache.length →
        (s.set k v ttl now).cache = s.cache.tail ++ [(k, ⟨v, now + ttl, now⟩)])
    ∧ (k ∈ keys s.cache → s.cache.length < s.maxSize →
        keys (s.set k v ttl now).cache = keys s.cache)
    ∧ (s.maxSize ≤ s.cache.length →
        (s.set k v ttl now).cache = mapSet k ⟨v, now + ttl, now⟩ s.cache.tail)
    ∧ (keys ((⟨[], n⟩ : CacheManager α).setAll v ttl now ks).cache = ks.tail) := by
  refine ⟨?_, ?_, ?_, ?_, ?_, ?_⟩
  · rw [set_cache_eq]; exact mapGet_mapSet_self _ _ _
  · intro hk hlt
    rw [set_cache_eq, if_neg (by omega), mapSet_of_not_mem hk]
  · intro hk hge
    have hk' : k ∉ keys s.cache.tail := by
      intro hmem
      apply hk
      have : keys s.cache.tail = (keys s.cache).tail := by
        cases s.cache <;> simp [keys]
      rw [this] at hmem
      exact List.mem_of_mem_tail hmem
    rw [set_cache_eq, if_pos hge, mapSet_of_not_mem hk']
  · intro hk hlt
    rw [set_cache_eq, if_neg (by omega)]
    exact keys_mapSet_of_mem hk _
  · intro hge
    rw [set_cache_eq, if_pos hge]
  · rcases ks.eq_nil_or_concat with hnil | ⟨init, klast, hconcat⟩
    · subst hnil; simp at hlen
    · rw [List.concat_eq_append] at hconcat
      subst hconcat
      have hinitlen : init.length = n := by
        simp only [List.length_append, List.length_cons, List.length_nil] at hlen
        omega
      have hinitnd : init.Nodup := (List.nodup_append.mp hks).1
      have hklast : klast ∉ init := by
        intro hmem
        exact (List.nodup_append.mp hks).2.2 hmem (by simp)
      have hfold : (CacheManager.setAll ⟨[], n⟩ v ttl now (init ++ [klast]))
          = ((CacheManager.setAll ⟨[], n⟩ v ttl now init).set klast v ttl now) := by
        simp only [CacheManager.setAll, List.foldl_append, List.foldl_cons, List.foldl_nil]
      have hinit := setAll_fresh v ttl now init (⟨[], n⟩ : CacheManager α)
        (by simpa [keys] using hinitnd) (by simp [hinitlen])
      have hcache : (CacheManager.setAll ⟨[], n⟩ v ttl now init).cache
          = init.map (fun k => (k, ⟨v, now + ttl, now⟩)) := by
        simpa using hinit.1
      have hmax : (CacheManager.setAll ⟨[], n⟩ v ttl now init).maxSize = n := hinit.2
      rw [hfold]
      have hge : (CacheManager.setAll ⟨[], n⟩ v ttl now init).maxSize
          ≤ (CacheManager.setAll ⟨[], n⟩ v ttl now init).cache.length := by
        rw [hmax, hcache]; simp [hinitlen]
      have hcompid :
          (Prod.fst ∘ fun k => ((k, (⟨v, now + ttl, now⟩ : Entry α)) : String × Entry α))
            = id := rfl
      have hklast' : klast ∉ keys (CacheManager.setAll ⟨[], n⟩ v ttl now init).cache.tail := by
        rw [hcache]
        intro hmem
        apply hklast
        have h1 : keys (init.map fun k => ((k, ⟨v, now + ttl, now⟩) : String × Entry α)) = init := by
          simp only [keys, List.map_map, hcompid, List.map_id]
        have h2 : keys ((init.map fun k => ((k, ⟨v, now + ttl, now⟩) : String × Entry α)).tail)
            = (keys (init.map fun k => ((k, ⟨v, now + ttl, now⟩) : String × Entry α))).tail := by
          cases init <;> simp [keys]
        rw [h2, h1] at hmem
        exact List.mem_of_mem_tail hmem
      rw [set_cache_eq, if_pos hge, mapSet_of_not_mem hklast', hcache]
      cases init with
      | nil =>
        simp only [List.length_nil] at hinitlen
        omega
      | cons i0 irest =>
        simp only [keys, List.map_cons, List.tail_cons, List.map_append, List.map_map,
          hcompid, List.map_id, List.cons_append, List.map_nil]

/-- Witness for claim C3: concrete instantiation with capacity 2 and the
three distinct keys a, b, c, checking that exactly key a is evicted. -/
theorem claim_C3_set_lru_witness :
    ((0 : Nat) < 2 ∧ (["a", "b", "c"] : List String).Nodup
      ∧ (["a", "b", "c"] : List String).length = 2 + 1)
    ∧ keys ((⟨[], 2⟩ : CacheManager Nat).setAll 7 5 0 ["a", "b", "c"]).cache
        = ["b", "c"] :=
  ⟨⟨by decide, by decide, by decide⟩,
    (claim_C3_set_lru (CacheManager.new Nat) "k" 7 5 0 2 ["a", "b", "c"]
      (by decide) (by decide) (by decide)).2.2.2.2.2⟩

/-- Claim C9 counterexample: the claim says has(key) does not mutate the
cache.  In the source, has calls get, which refreshes recency: with the
store holding a then b, has("a") reorders the store to b then a. -/
theorem claim_C9_counterexample :
    ((⟨[("a", ⟨1, 100, 0⟩), ("b", ⟨2, 100, 0⟩)], 1000⟩ :
        CacheManager Nat).has "a" 0).2
      ≠ ⟨[("a", ⟨1, 100, 0⟩), ("b", ⟨2, 100, 0⟩)], 1000⟩ := by
  decide

/-- Claim C9 as amended by the counterexample: delete and clear are direct
passthroughs to the underlying Map (delete removes exactly the given key
and reports whether it was present; clear empties the store), but has is
implemented as get(key) !== null, so it performs get's mutations (recency
refresh and expiry deletion); its boolean is true exactly when an
unexpired entry for the key is present. -/
theorem claim_C9_passthroughs {α : Type} (s : CacheManager α) (k k' : String)
    (t : Int) (hnd : (keys s.cache).Nodup) :
    ((s.has k t).1 = true ↔ ∃ e, mapGet k s.cache = some e ∧ ¬ e.expiresAt < t)
    ∧ ((s.has k t).2 = (s.get k t).2)
    ∧ ((s.delete k).2.cache = mapDelete k s.cache)
    ∧ ((s.delete k).1 = true ↔ k ∈ keys s.cache)
    ∧ (mapGet k' (s.delete k).2.cache = if k' = k then none else mapGet k' s.cache)
    ∧ (mapGet k' s.clear.cache = none) := by
  refine ⟨?_, rfl, rfl, mapGet_isSome_iff k s.cache, ?_, by simp [CacheManager.clear, mapGet]⟩
  · constructor
    · intro h
      rcases hm : mapGet k s.cache with _ | e
      · simp [CacheManager.has, CacheManager.get, hm] at h
      · by_cases hexp : e.expiresAt < t
        · rw [CacheManager.has, get_expired hm hexp] at h
          simp at h
        · exact ⟨e, rfl, hexp⟩
    · rintro ⟨e, hm, hexp⟩
      rw [CacheManager.has, get_hit hm hexp]
      rfl
  · by_cases hk : k' = k
    · subst hk
      simp only [if_pos rfl]
      exact mapGet_mapDelete_self hnd
    · rw [if_neg hk]
      exact mapGet_mapDelete_ne hk s.cache

/-- Witness for claim C9: concrete instantiation at a two-entry store. -/
theorem claim_C9_passthroughs_witness :
    (keys ([("a", ⟨1, 100, 0⟩), ("b", ⟨2, 100, 0⟩)] : Store Nat)).Nodup
    ∧ ((⟨[("a", ⟨1, 100, 0⟩), ("b", ⟨2, 100, 0⟩)], 1000⟩ :
          CacheManager Nat).has "a" 0).2
        = ((⟨[("a", ⟨1, 100, 0⟩), ("b", ⟨2, 100, 0⟩)], 1000⟩ :
          CacheManager Nat).get "a" 0).2 :=
  ⟨by decide,
    (claim_C9_passthroughs
      (⟨[("a", ⟨1, 100, 0⟩), ("b", ⟨2, 100, 0⟩)], 1000⟩ : CacheManager Nat)
      "a" "b" 0 (by decide)).2.1⟩

end CacheJS

namespace ValidationJS

/-- Character-list model of the JS strings handled by
src/services/utils/validation.js. -/
abbrev Str := List Char

/-- The JS whitespace class: the characters matched by the regex class \s
and removed by String.prototype.trim. -/
def jsWhitespace : List Char :=
  [' ', '\t', '\n', '\r', '\x0b', '\x0c', ' ', ' ',
   ' ', ' ', ' ', ' ', ' ', ' ', ' ',
   ' ', ' ', ' ', ' ', ' ', ' ', ' ',
   ' ', '　', '﻿']

/-- Whether a character is JS whitespace. -/
def jsIsSpace (c : Char) : Bool := decide (c ∈ jsWhitespace)

/-- Drop trailing characters satisfying p (the tail half of trim). -/
def dropTrailing (p : Char → Bool) (s : Str) : Str := (s.reverse.dropWhile p).reverse

/-- String.prototype.trim: remove leading and trailing whitespace. -/
def jsTrim (s : Str) : Str := dropTrailing jsIsSpace (s.dropWhile jsIsSpace)

/-- The regex word-character class [A-Za-z0-9_], which determines the word
boundaries of the street-suffix regex in normalizeAddress. -/
def isWordChar (c : Char) : Bool := c.isAlpha || c.isDigit || c = '_'

/-- Replacement of each maximal whitespace run by a single space: the
effect of address.replace of the whitespace-run regex with a space. -/
def collapseWs : Str → Str
  | [] => []
  | [c] => if jsIsSpace c then [' '] else [c]
  | c :: d :: rest =>
    if jsIsSpace c && jsIsSpace d then collapseWs (d :: rest)
    else (if jsIsSpace c then ' ' else c) :: collapseWs (d :: rest)

/-- The abbrevMap object of normalizeAddress: full suffix words (lowercase)
to their canonical abbreviations. -/
def abbrevMapLookup (w : Str) : Option Str :=
  if w = "street".toList then some "St".toList
  else if w = "avenue".toList then some "Ave".toList
  else if w = "boulevard".toList then some "Blvd".toList
  else if w = "road".toList then some "Rd".toList
  else if w = "drive".toList then some "Dr".toList
  else if w = "lane".toList then some "Ln".toList
  else if w = "court".toList then some "Ct".toList
  else if w = "place".toList then some "Pl".toList
  else none

/-- The alternatives of the street-suffix regex, in source order.  A
maximal word run matches the regex exactly when its lowercase form is one
of these. -/
def suffixAlternatives : List Str :=
  ["street".toList, "st".toList, "avenue".toList, "ave".toList,
   "boulevard".toList, "blvd".toList, "road".toList, "rd".toList,
   "drive".toList, "dr".toList, "lane".toList, "ln".toList,
   "court".toList, "ct".toList, "place".toList, "pl".toList]

/-- ASCII lowercasing of a word (the regex is case-insensitive and the
replacement callback lowercases the match before the map lookup). -/
def toLowerStr (w : Str) : Str := w.map Char.toLower

/-- The replacement callback applied to one regex match:
abbrevMap[match.toLowerCase()] || match. -/
def replaceMatch (w : Str) : Str := (abbrevMapLookup (toLowerStr w)).getD w

/-- The effect of the suffix regex on one maximal word run: the run is
replaced when it matches the alternation (case-insensitively, bounded by
word boundaries); other runs are untouched. -/
def wordRepOne (w : Str) : Str :=
  if toLowerStr w ∈ suffixAlternatives then replaceMatch w else w

/-- Emit a completed word run: nothing for an empty run, its replacement
otherwise. -/
def flushRun (run : Str) : Str := if run.isEmpty then [] else wordRepOne run

/-- Worker for the suffix replacement: walks the string keeping the
current word run in the accumulator, emitting replaced runs at word
boundaries. -/
def wordRepAux : Str → Str → Str
  | run, [] => flushRun run
  | run, c :: cs =>
    if isWordChar c then wordRepAux (run ++ [c]) cs
    else flushRun run ++ c :: wordRepAux [] cs

/-- The street-suffix replacement pass of normalizeAddress. -/
def wordRep (s : Str) : Str := wordRepAux [] s

/-- normalizeAddress: trim, collapse whitespace runs to single spaces,
then canonicalize street-suffix words. -/
def normalizeAddress (address : Str) : Str :=
  wordRep (collapseWs (jsTrim address))

/-- Result shape of validateAddress. -/
structure ValidationResult where
  isValid : Bool
  errors : List String
  warnings : List String
  normalized : Option Str
deriving DecidableEq

/-- validateAddress of src/services/utils/validation.js.  The input is a
string by typing, so the typeof check of the source is vacuous here; an
empty trimmed address is an error; a missing digit only warns; a missing
alphabetic character is the only other error. -/
def validateAddress (address : Str) : ValidationResult :=
  let trimmed := jsTrim address
  if trimmed.isEmpty then
    { isValid := false, errors := ["Address cannot be empty"],
      warnings := [], normalized := none }
  else
    let warnings0 : List String :=
      if trimmed.length < 10 then ["Address appears to be incomplete"] else []
    let hasNumber := trimmed.any Char.isDigit
    let hasStreetName := trimmed.any Char.isAlpha
    let warnings1 := warnings0 ++
      (if hasNumber then [] else ["Address should include a street number"])
    let errors : List String :=
      if hasStreetName then [] else ["Address should include a street name"]
    { isValid := errors.isEmpty, errors := errors, warnings := warnings1,
      normalized := some (normalizeAddress trimmed) }

/-- BaseAPIService.validateAddress: throws a ValidationError carrying the
error list when validation fails, otherwise returns the normalized
address. -/
def baseValidateAddress (address : Str) : Except (List String) Str :=
  let validation := validateAddress address
  if validation.isValid then Except.ok (validation.normalized.getD [])
  else Except.error validation.errors

end ValidationJS

namespace ValidationJS

/-- Claim C6 counterexample: the claim says address validation fails when
the address has no digit.  The source only records a warning for a missing
digit: "Main Street" has no digit yet validates successfully, and the
evaluator-level validateAddress returns the normalized address "Main St"
instead of throwing. -/
theorem claim_C6_counterexample :
    ("Main Street".toList.any Char.isDigit) = false
    ∧ (validateAddress "Main Street".toList).isValid = true
    ∧ baseValidateAddress "Main Street".toList = Except.ok "Main St".toList := by
  refine ⟨by decide, by decide, by rfl⟩

/-- Claim C6 as amended by the counterexample: the address validation step
fails (and the evaluator-level wrapper throws a ValidationError) exactly
when the trimmed address is empty or contains no alphabetic character; an
address with no digit but at least one letter passes validation with only
a warning. -/
theorem claim_C6_validation (address : Str) :
    ((validateAddress address).isValid = false
      ↔ (jsTrim address).isEmpty = true ∨ (jsTrim address).any Char.isAlpha = false)
    ∧ ((validateAddress address).isValid = false
      ↔ ∃ e, baseValidateAddress address = Except.error e)
    ∧ ((jsTrim address).isEmpty = false → (jsTrim address).any Char.isAlpha = true →
        (jsTrim address).any Char.isDigit = false →
        (validateAddress address).isValid = true
        ∧ "Address should include a street number" ∈ (validateAddress address).warnings) := by
  by_cases hempty : (jsTrim address).isEmpty
  · refine ⟨by simp [validateAddress, hempty], ?_, by simp [hempty]⟩
    simp [validateAddress, baseValidateAddress, hempty]
  · by_cases halpha : (jsTrim address).any Char.isAlpha
    · refine ⟨by simp [validateAddress, hempty, halpha], ?_, ?_⟩
      · simp [validateAddress, baseValidateAddress, hempty, halpha]
      · intro _ _ hdigit
        simp [validateAddress, hempty, halpha, hdigit]
    · refine ⟨by simp [validateAddress, hempty, halpha], ?_, ?_⟩
      · simp [validateAddress, baseValidateAddress, hempty, halpha]
      · intro _ halpha'
        exact absurd halpha' halpha

/-- Witness for claim C6: concrete instantiation at the address
"1600 Pennsylvania Ave", which validates successfully. -/
theorem claim_C6_validation_witness :
    ((validateAddress "1600 Pennsylvania Ave".toList).isValid = false
      ↔ (jsTrim "1600 Pennsylvania Ave".toList).isEmpty = true
        ∨ (jsTrim "1600 Pennsylvania Ave".toList).any Char.isAlpha = false) :=
  (claim_C6_validation "1600 Pennsylvania Ave".toList).1

end ValidationJS

namespace ValidationJS

theorem head?_dropWhile {p : Char → Bool} {l : Str} {c : Char}
    (h : (l.dropWhile p).head? = some c) : p c = false := by
  induction l with
  | nil => simp [List.dropWhile] at h
  | cons d ds ih =>
    by_cases hd : p d
    · rw [List.dropWhile_cons, if_pos hd] at h
      exact ih h
    · rw [List.dropWhile_cons, if_neg hd] at h
      simp only [List.head?_cons, Option.some_inj] at h
      subst h
      simpa using hd

theorem dropWhile_eq_self_of_head {p : Char → Bool} {l : Str}
    (h : ∀ c, l.head? = some c → p c = false) : l.dropWhile p = l := by
  cases l with
  | nil => rfl
  | cons d ds => rw [List.dropWhile_cons, if_neg (by simp [h d rfl])]

theorem dropTrailing_head? {p : Char → Bool} {l : Str} {c : Char}
    (h : (dropTrailing p l).head? = some c) : l.head? = some c := by
  obtain ⟨t, ht⟩ := List.dropWhile_suffix (l := l.reverse) p
  have hl : l = dropTrailing p l ++ t.reverse := by
    have := congrArg List.reverse ht
    simpa [dropTrailing, List.reverse_append] using this.symm
  cases hrev : dropTrailing p l with
  | nil => rw [hrev] at h; simp at h
  | cons x xs =>
    rw [hrev] at h
    rw [hl, hrev]
    simpa using h

theorem jsTrim_head {x : Str} {c : Char} (h : (jsTrim x).head? = some c) :
    jsIsSpace c = false := by
  unfold jsTrim at h
  exact head?_dropWhile (dropTrailing_head? h)

theorem jsTrim_last {x : Str} {c : Char} (h : (jsTrim x).getLast? = some c) :
    jsIsSpace c = false := by
  unfold jsTrim dropTrailing at h
  rw [List.getLast?_reverse] at h
  exact head?_dropWhile h

theorem jsTrim_eq_self {l : Str}
    (h1 : ∀ c, l.head? = some c → jsIsSpace c = false)
    (h2 : ∀ c, l.getLast? = some c → jsIsSpace c = false) : jsTrim l = l := by
  unfold jsTrim dropTrailing
  rw [dropWhile_eq_self_of_head h1]
  rw [dropWhile_eq_self_of_head (fun c hc => h2 c (by rwa [List.head?_reverse] at hc))]
  exact List.reverse_reverse l

theorem collapseWs_ne_nil {l : Str} (h : l ≠ []) : collapseWs l ≠ [] := by
  induction l with
  | nil => exact absurd rfl h
  | cons c cs ih =>
    cases cs with
    | nil =>
      by_cases hc : jsIsSpace c <;> simp [collapseWs, hc]
    | cons d rest =>
      by_cases hsp : jsIsSpace c && jsIsSpace d
      · rw [show collapseWs (c :: d :: rest) = collapseWs (d :: rest) by
          simp [collapseWs, hsp]]
        exact ih (by simp)
      · rw [show collapseWs (c :: d :: rest)
            = (if jsIsSpace c then ' ' else c) :: collapseWs (d :: rest) by
          simp [collapseWs, hsp]]
        simp

theorem collapseWs_head? {l : Str}
    (h : ∀ c, l.head? = some c → jsIsSpace c = false) :
    (collapseWs l).head? = l.head? := by
  cases l with
  | nil => rfl
  | cons c cs =>
    have hc : jsIsSpace c = false := h c rfl
    cases cs with
    | nil => simp [collapseWs, hc]
    | cons d rest => simp [collapseWs, hc]

theorem collapseWs_getLast? {l : Str}
    (h : ∀ c, l.getLast? = some c → jsIsSpace c = false) :
    ∀ c, (collapseWs l).getLast? = some c → jsIsSpace c = false := by
  induction l with
  | nil => intro c hc; simp [collapseWs] at hc
  | cons c0 cs ih =>
    cases cs with
    | nil =>
      intro c hc
      by_cases hsp : jsIsSpace c0
      · exact absurd (h c0 rfl) (by simp [hsp])
      · have hc0 : jsIsSpace c0 = false := by simpa using hsp
        rw [show collapseWs [c0] = [c0] by simp [collapseWs, hc0]] at hc
        simp only [List.getLast?_singleton, Option.some_inj] at hc
        subst hc
        exact hc0
    | cons d rest =>
      have hlast : ∀ c, (d :: rest).getLast? = some c → jsIsSpace c = false := by
        intro c hc
        exact h c (by rwa [List.getLast?_cons_cons])
      intro c hc
      by_cases hsp : jsIsSpace c0 && jsIsSpace d
      · rw [show collapseWs (c0 :: d :: rest) = collapseWs (d :: rest) by
          simp [collapseWs, hsp]] at hc
        exact ih hlast c hc
      · rw [show collapseWs (c0 :: d :: rest)
            = (if jsIsSpace c0 then ' ' else c0) :: collapseWs (d :: rest) by
          simp [collapseWs, hsp]] at hc
        obtain ⟨e, w, hw⟩ : ∃ e w, collapseWs (d :: rest) = e :: w := by
          cases hcw : collapseWs (d :: rest) with
          | nil => exact absurd hcw (collapseWs_ne_nil (by simp))
          | cons e w => exact ⟨e, w, rfl⟩
        rw [hw, List.getLast?_cons_cons] at hc
        exact ih hlast c (by rwa [hw])

end ValidationJS

namespace ValidationJS

/-- Fixed points of the whitespace-collapsing pass: every whitespace
character is a plain space and no two whitespace characters are
adjacent. -/
def wsFixed : Str → Bool
  | [] => true
  | [c] => !jsIsSpace c || c = ' '
  | c :: d :: rest => (!jsIsSpace c || (c = ' ' && !jsIsSpace d)) && wsFixed (d :: rest)

theorem wsFixed_cons {c : Char} {w : Str}
    (hc : jsIsSpace c = false
      ∨ (c = ' ' ∧ ∀ d, w.head? = some d → jsIsSpace d = false))
    (hw : wsFixed w = true) : wsFixed (c :: w) = true := by
  cases w with
  | nil =>
    rcases hc with hc | ⟨hc, _⟩
    · simp [wsFixed, hc]
    · simp [wsFixed, hc]
  | cons d rest =>
    rcases hc with hc | ⟨hc, hd⟩
    · simp [wsFixed, hc, hw]
    · simp [wsFixed, hc, hd d rfl, hw]

theorem wsFixed_tail {c : Char} {w : Str} (h : wsFixed (c :: w) = true) :
    wsFixed w = true := by
  cases w with
  | nil => rfl
  | cons d rest =>
    simp only [wsFixed, Bool.and_eq_true] at h
    exact h.2

theorem wsFixed_cons_cons_space {c d : Char} {rest : Str}
    (h : wsFixed (c :: d :: rest) = true) (hc : jsIsSpace c = true) :
    c = ' ' ∧ jsIsSpace d = false := by
  simp only [wsFixed, Bool.and_eq_true, Bool.or_eq_true, Bool.not_eq_true'] at h
  rcases h.1 with h1 | h1
  · rw [hc] at h1; cases h1
  · exact ⟨of_decide_eq_true h1.1, by simpa using h1.2⟩

theorem wsFixed_singleton_space {c : Char} (h : wsFixed [c] = true)
    (hc : jsIsSpace c = true) : c = ' ' := by
  simp only [wsFixed, Bool.or_eq_true, Bool.not_eq_true'] at h
  rcases h with h | h
  · rw [hc] at h; cases h
  · exact of_decide_eq_true h

theorem wsFixed_dropWhile (p : Char → Bool) {l : Str} (h : wsFixed l = true) :
    wsFixed (l.dropWhile p) = true := by
  induction l with
  | nil => simpa using h
  | cons c cs ih =>
    by_cases hc : p c
    · rw [List.dropWhile_cons, if_pos hc]
      exact ih (wsFixed_tail h)
    · rwa [List.dropWhile_cons, if_neg hc]

theorem wsFixed_collapseWs (l : Str) : wsFixed (collapseWs l) = true := by
  induction l with
  | nil => rfl
  | cons c cs ih =>
    cases cs with
    | nil =>
      by_cases hc : jsIsSpace c
      · rw [show collapseWs [c] = [' '] by simp [collapseWs, hc]]
        decide
      · rw [show collapseWs [c] = [c] by simp [collapseWs, hc]]
        simp [wsFixed, hc]
    | cons d rest =>
      by_cases hsp : jsIsSpace c && jsIsSpace d
      · rw [show collapseWs (c :: d :: rest) = collapseWs (d :: rest) by
          simp [collapseWs, hsp]]
        exact ih
      · by_cases hc : jsIsSpace c
        · have hd : jsIsSpace d = false := by
            cases hdd : jsIsSpace d
            · rfl
            · exact absurd (by simp [hc, hdd]) hsp
          rw [show collapseWs (c :: d :: rest) = ' ' :: collapseWs (d :: rest) by
            simp [collapseWs, hsp, hc, hd]]
          refine wsFixed_cons (Or.inr ⟨rfl, ?_⟩) ih
          intro e he
          rw [collapseWs_head? (fun e' he' => by
            simp only [List.head?_cons, Option.some_inj] at he'
            subst he'
            exact hd)] at he
          simp only [List.head?_cons, Option.some_inj] at he
          subst he
          exact hd
        · have hc' : jsIsSpace c = false := by simpa using hc
          rw [show collapseWs (c :: d :: rest) = c :: collapseWs (d :: rest) by
            simp [collapseWs, hsp, hc']]
          exact wsFixed_cons (Or.inl hc') ih

theorem collapseWs_eq_self {l : Str} (h : wsFixed l = true) : collapseWs l = l := by
  induction l with
  | nil => rfl
  | cons c cs ih =>
    cases cs with
    | nil =>
      by_cases hc : jsIsSpace c
      · have := wsFixed_singleton_space h hc
        subst this
        simp [collapseWs, hc]
      · simp [collapseWs, hc]
    | cons d rest =>
      have h2 := wsFixed_tail h
      by_cases hc : jsIsSpace c
      · obtain ⟨hce, hd⟩ := wsFixed_cons_cons_space h hc
        have hcond : (jsIsSpace c && jsIsSpace d) = false := by simp [hd]
        rw [show collapseWs (c :: d :: rest) = ' ' :: collapseWs (d :: rest) by
          simp [collapseWs, hcond, hc, hd]]
        rw [ih h2, hce]
      · have hc' : jsIsSpace c = false := by simpa using hc
        have hcond : (jsIsSpace c && jsIsSpace d) = false := by simp [hc']
        rw [show collapseWs (c :: d :: rest) = c :: collapseWs (d :: rest) by
          simp [collapseWs, hcond, hc']]
        rw [ih h2]

end ValidationJS

namespace ValidationJS

theorem isWordChar_not_space {c : Char} (h : isWordChar c = true) :
    jsIsSpace c = false := by
  cases hs : jsIsSpace c
  · rfl
  · exfalso
    unfold jsIsSpace at hs
    have hmem : c ∈ jsWhitespace := of_decide_eq_true hs
    simp only [jsWhitespace, List.mem_cons, List.not_mem_nil, or_false] at hmem
    rcases hmem with rfl|rfl|rfl|rfl|rfl|rfl|rfl|rfl|rfl|rfl|rfl|rfl|rfl|rfl|rfl|rfl|rfl|rfl|rfl|rfl|rfl|rfl|rfl|rfl|rfl <;>
      exact absurd h (by decide)

theorem wordRepAux_cons_word {c : Char} (hc : isWordChar c = true) (run cs : Str) :
    wordRepAux run (c :: cs) = wordRepAux (run ++ [c]) cs := by
  simp [wordRepAux, hc]

theorem wordRepAux_cons_nonword {c : Char} (hc : isWordChar c = false) (run cs : Str) :
    wordRepAux run (c :: cs) = flushRun run ++ c :: wordRepAux [] cs := by
  simp [wordRepAux, hc]

theorem wordRep_cons_nonword {c : Char} {cs : Str} (hc : isWordChar c = false) :
    wordRep (c :: cs) = c :: wordRep cs := by
  simp [wordRep, wordRepAux_cons_nonword hc, flushRun]

theorem wordRepAux_word_append {w : Str} (hw : ∀ c ∈ w, isWordChar c = true) :
    ∀ (run l : Str), wordRepAux run (w ++ l) = wordRepAux (run ++ w) l := by
  induction w with
  | nil => intro run l; simp
  | cons c cs ih =>
    intro run l
    rw [List.cons_append, wordRepAux_cons_word (hw c (by simp)) run (cs ++ l)]
    rw [ih (fun x hx => hw x (by simp [hx])) (run ++ [c]) l]
    simp

theorem abbrevMapLookup_props {w a : Str} (h : abbrevMapLookup w = some a) :
    a ≠ [] ∧ (∀ c ∈ a, isWordChar c = true) ∧ wordRepOne a = a := by
  unfold abbrevMapLookup at h
  split_ifs at h <;>
    (injection h with h; subst h; refine ⟨by decide, by decide, by decide⟩)

theorem wordRepOne_props {w : Str} (hne : w ≠ [])
    (hw : ∀ c ∈ w, isWordChar c = true) :
    wordRepOne w ≠ [] ∧ (∀ c ∈ wordRepOne w, isWordChar c = true) := by
  by_cases hmem : toLowerStr w ∈ suffixAlternatives
  · cases hl : abbrevMapLookup (toLowerStr w) with
    | none =>
      rw [show wordRepOne w = w by simp [wordRepOne, replaceMatch, hmem, hl]]
      exact ⟨hne, hw⟩
    | some a =>
      rw [show wordRepOne w = a by simp [wordRepOne, replaceMatch, hmem, hl]]
      have hp := abbrevMapLookup_props hl
      exact ⟨hp.1, hp.2.1⟩
  · rw [show wordRepOne w = w by simp [wordRepOne, hmem]]
    exact ⟨hne, hw⟩

theorem wordRepOne_idem (run : Str) : wordRepOne (wordRepOne run) = wordRepOne run := by
  by_cases hmem : toLowerStr run ∈ suffixAlternatives
  · cases hl : abbrevMapLookup (toLowerStr run) with
    | none =>
      simp only [show wordRepOne run = run by simp [wordRepOne, replaceMatch, hmem, hl]]
    | some a =>
      have hp := abbrevMapLookup_props hl
      rw [show wordRepOne run = a by simp [wordRepOne, replaceMatch, hmem, hl]]
      exact hp.2.2
  · simp only [show wordRepOne run = run by simp [wordRepOne, hmem]]

theorem wordRep_run_append {run z : Str} (hne : run ≠ [])
    (hw : ∀ c ∈ run, isWordChar c = true)
    (hz : ∀ c, z.head? = some c → isWordChar c = false) :
    wordRep (run ++ z) = wordRepOne run ++ wordRep z := by
  have hflush : flushRun run = wordRepOne run := by
    cases run with
    | nil => exact absurd rfl hne
    | cons r rs => rfl
  show wordRepAux [] (run ++ z) = wordRepOne run ++ wordRep z
  rw [wordRepAux_word_append hw [] z]
  simp only [List.nil_append]
  cases z with
  | nil =>
    show flushRun run = wordRepOne run ++ wordRep []
    rw [hflush]
    simp [wordRep, wordRepAux, flushRun]
  | cons c cs =>
    rw [wordRepAux_cons_nonword (hz c rfl) run cs, hflush,
      wordRep_cons_nonword (hz c rfl)]
    rfl

theorem wordRep_cons_word {c : Char} {cs : Str} (hc : isWordChar c = true) :
    wordRep (c :: cs) = wordRepOne (c :: cs.takeWhile isWordChar)
      ++ wordRep (cs.dropWhile isWordChar) := by
  have hdecomp : c :: cs = (c :: cs.takeWhile isWordChar) ++ cs.dropWhile isWordChar := by
    rw [List.cons_append, List.takeWhile_append_dropWhile]
  conv_lhs => rw [hdecomp]
  exact wordRep_run_append (by simp)
    (by
      intro x hx
      rcases List.mem_cons.mp hx with rfl | hx
      · exact hc
      · exact List.mem_takeWhile_imp hx)
    (fun d hd => head?_dropWhile hd)

theorem wordRep_ne_nil {l : Str} (h : l ≠ []) : wordRep l ≠ [] := by
  cases l with
  | nil => exact absurd rfl h
  | cons c cs =>
    cases hc : isWordChar c
    · rw [wordRep_cons_nonword hc]; simp
    · rw [wordRep_cons_word hc]
      have hne := (wordRepOne_props (w := c :: cs.takeWhile isWordChar) (by simp)
        (by
          intro x hx
          rcases List.mem_cons.mp hx with rfl | hx
          · exact hc
          · exact List.mem_takeWhile_imp hx)).1
      intro happ
      exact hne (List.append_eq_nil.mp happ).1

theorem wordRep_head?_nonword {l : Str}
    (hl : ∀ d, l.head? = some d → isWordChar d = false) :
    (wordRep l).head? = l.head? := by
  cases l with
  | nil => rfl
  | cons d ds =>
    rw [wordRep_cons_nonword (hl d rfl)]
    rfl

theorem wordRep_head?_nonspace {l : Str}
    (hl : ∀ d, l.head? = some d → jsIsSpace d = false) :
    ∀ c, (wordRep l).head? = some c → jsIsSpace c = false := by
  intro c hc
  cases l with
  | nil => simp [wordRep, wordRepAux, flushRun] at hc
  | cons d ds =>
    cases hd : isWordChar d
    · rw [wordRep_cons_nonword hd] at hc
      simp only [List.head?_cons, Option.some_inj] at hc
      rw [← hc]
      exact hl d rfl
    · rw [wordRep_cons_word hd] at hc
      have hprops := wordRepOne_props (w := d :: ds.takeWhile isWordChar) (by simp)
        (by
          intro x hx
          rcases List.mem_cons.mp hx with rfl | hx
          · exact hd
          · exact List.mem_takeWhile_imp hx)
      obtain ⟨e, w, hw⟩ : ∃ e w, wordRepOne (d :: ds.takeWhile isWordChar) = e :: w := by
        cases hx : wordRepOne (d :: ds.takeWhile isWordChar) with
        | nil => exact absurd hx hprops.1
        | cons e w => exact ⟨e, w, rfl⟩
      rw [hw] at hc
      simp only [List.cons_append, List.head?_cons, Option.some_inj] at hc
      rw [← hc]
      exact isWordChar_not_space (hprops.2 e (by rw [hw]; simp))

end ValidationJS

namespace ValidationJS

theorem wordRep_getLast?_nonspace :
    ∀ (n : Nat) (l : Str), l.length ≤ n →
      (∀ c, l.getLast? = some c → jsIsSpace c = false) →
      ∀ c, (wordRep l).getLast? = some c → jsIsSpace c = false := by
  intro n
  induction n with
  | zero =>
    intro l hl _ c hc
    have hnil : l = [] := List.eq_nil_of_length_eq_zero (Nat.le_zero.mp hl)
    subst hnil
    simp [wordRep, wordRepAux, flushRun] at hc
  | succ n ih =>
    intro l hl hlast c hc
    cases l with
    | nil => simp [wordRep, wordRepAux, flushRun] at hc
    | cons d ds =>
      cases hd : isWordChar d
      · rw [wordRep_cons_nonword hd] at hc
        cases hds : ds with
        | nil =>
          subst hds
          simp only [show wordRep ([] : Str) = [] from rfl,
            List.getLast?_singleton, Option.some_inj] at hc
          rw [← hc]
          exact hlast d rfl
        | cons e es =>
          subst hds
          obtain ⟨x, xs, hx⟩ : ∃ x xs, wordRep (e :: es) = x :: xs := by
            cases hxx : wordRep (e :: es) with
            | nil => exact absurd hxx (wordRep_ne_nil (by simp))
            | cons x xs => exact ⟨x, xs, rfl⟩
          rw [hx, List.getLast?_cons_cons] at hc
          have hlast' : ∀ y, (e :: es).getLast? = some y → jsIsSpace y = false := by
            intro y hy
            exact hlast y (by rwa [List.getLast?_cons_cons])
          refine ih (e :: es) ?_ hlast' c (by rwa [hx])
          simp only [List.length_cons] at hl ⊢
          omega
      · rw [wordRep_cons_word hd] at hc
        have hrunw : ∀ x ∈ d :: ds.takeWhile isWordChar, isWordChar x = true := by
          intro x hx
          rcases List.mem_cons.mp hx with rfl | hx
          · exact hd
          · exact List.mem_takeWhile_imp hx
        have hprops := wordRepOne_props (by simp) hrunw
        cases hres : ds.dropWhile isWordChar with
        | nil =>
          rw [hres] at hc
          simp only [show wordRep ([] : Str) = [] from rfl, List.append_nil] at hc
          have hcmem : c ∈ wordRepOne (d :: ds.takeWhile isWordChar) :=
            List.mem_of_mem_getLast? (Option.mem_def.mpr hc)
          exact isWordChar_not_space (hprops.2 c hcmem)
        | cons e es =>
          rw [hres] at hc
          have hwne : wordRep (e :: es) ≠ [] := wordRep_ne_nil (by simp)
          rw [List.getLast?_append_of_ne_nil _ hwne] at hc
          have hlast' : ∀ y, (e :: es).getLast? = some y → jsIsSpace y = false := by
            intro y hy
            apply hlast
            have hdecomp : d :: ds
                = (d :: ds.takeWhile isWordChar) ++ ds.dropWhile isWordChar := by
              rw [List.cons_append, List.takeWhile_append_dropWhile]
            rw [hdecomp, hres, List.getLast?_append_of_ne_nil _ (by simp)]
            exact hy
          refine ih (e :: es) ?_ hlast' c hc
          have h1 : (ds.dropWhile isWordChar).length ≤ ds.length :=
            (List.dropWhile_suffix _).length_le
          rw [hres] at h1
          simp only [List.length_cons] at hl h1 ⊢
          omega

theorem wsFixed_append_nonspace {a b : Str}
    (ha : ∀ c ∈ a, jsIsSpace c = false) (hb : wsFixed b = true) :
    wsFixed (a ++ b) = true := by
  induction a with
  | nil => simpa using hb
  | cons c a' ih =>
    rw [List.cons_append]
    exact wsFixed_cons (Or.inl (ha c (by simp)))
      (ih (fun x hx => ha x (by simp [hx])))

theorem wordRep_wsFixed :
    ∀ (n : Nat) (l : Str), l.length ≤ n → wsFixed l = true →
      wsFixed (wordRep l) = true := by
  intro n
  induction n with
  | zero =>
    intro l hl _
    have hnil : l = [] := List.eq_nil_of_length_eq_zero (Nat.le_zero.mp hl)
    subst hnil
    rfl
  | succ n ih =>
    intro l hl hfix
    cases l with
    | nil => rfl
    | cons c cs =>
      cases hc : isWordChar c
      · rw [wordRep_cons_nonword hc]
        have hcs : wsFixed cs = true := wsFixed_tail hfix
        have hwcs := ih cs (by simp only [List.length_cons] at hl; omega) hcs
        refine wsFixed_cons ?_ hwcs
        cases hsp : jsIsSpace c
        · exact Or.inl rfl
        · right
          cases cs with
          | nil =>
            refine ⟨wsFixed_singleton_space hfix hsp, ?_⟩
            intro x hx
            simp [wordRep, wordRepAux, flushRun] at hx
          | cons d ds =>
            obtain ⟨hce, hdns⟩ := wsFixed_cons_cons_space hfix hsp
            refine ⟨hce, ?_⟩
            apply wordRep_head?_nonspace
            intro x hx
            simp only [List.head?_cons, Option.some_inj] at hx
            rw [← hx]
            exact hdns
      · rw [wordRep_cons_word hc]
        have hrunw : ∀ x ∈ c :: cs.takeWhile isWordChar, isWordChar x = true := by
          intro x hx
          rcases List.mem_cons.mp hx with rfl | hx
          · exact hc
          · exact List.mem_takeWhile_imp hx
        have hprops := wordRepOne_props (by simp) hrunw
        have hrestfix : wsFixed (cs.dropWhile isWordChar) = true :=
          wsFixed_dropWhile _ (wsFixed_tail hfix)
        have hrestlen : (cs.dropWhile isWordChar).length ≤ n := by
          have h1 : (cs.dropWhile isWordChar).length ≤ cs.length :=
            (List.dropWhile_suffix _).length_le
          simp only [List.length_cons] at hl
          omega
        exact wsFixed_append_nonspace
          (fun x hx => isWordChar_not_space (hprops.2 x hx))
          (ih _ hrestlen hrestfix)

theorem wordRep_idem_aux :
    ∀ (n : Nat) (l : Str), l.length ≤ n → wordRep (wordRep l) = wordRep l := by
  intro n
  induction n with
  | zero =>
    intro l hl
    have hnil : l = [] := List.eq_nil_of_length_eq_zero (Nat.le_zero.mp hl)
    subst hnil
    rfl
  | succ n ih =>
    intro l hl
    cases l with
    | nil => rfl
    | cons c cs =>
      cases hc : isWordChar c
      · rw [wordRep_cons_nonword hc, wordRep_cons_nonword hc]
        rw [ih cs (by simp only [List.length_cons] at hl; omega)]
      · rw [wordRep_cons_word hc]
        have hrunw : ∀ x ∈ c :: cs.takeWhile isWordChar, isWordChar x = true := by
          intro x hx
          rcases List.mem_cons.mp hx with rfl | hx
          · exact hc
          · exact List.mem_takeWhile_imp hx
        have hprops := wordRepOne_props (by simp) hrunw
        have hresthead : ∀ x, (cs.dropWhile isWordChar).head? = some x →
            isWordChar x = false := fun x hx => head?_dropWhile hx
        have hwrhead : ∀ x, (wordRep (cs.dropWhile isWordChar)).head? = some x →
            isWordChar x = false := by
          intro x hx
          exact hresthead x (by rwa [wordRep_head?_nonword hresthead] at hx)
        rw [wordRep_run_append hprops.1 hprops.2 hwrhead]
        have hrestlen : (cs.dropWhile isWordChar).length ≤ n := by
          have h1 : (cs.dropWhile isWordChar).length ≤ cs.length :=
            (List.dropWhile_suffix _).length_le
          simp only [List.length_cons] at hl
          omega
        rw [wordRepOne_idem, ih _ hrestlen]

theorem wordRep_idem (l : Str) : wordRep (wordRep l) = wordRep l :=
  wordRep_idem_aux l.length l le_rfl

/-- Claim C7: address normalization is idempotent.  normalizeAddress
trims, collapses every whitespace run to a single space, and canonicalizes
street-suffix words bounded by word boundaries; applying it twice gives
the same result as applying it once, for every address string. -/
theorem claim_C7_normalize_idempotent (a : Str) :
    normalizeAddress (normalizeAddress a) = normalizeAddress a := by
  unfold normalizeAddress
  have hheadm : ∀ c, (collapseWs (jsTrim a)).head? = some c → jsIsSpace c = false := by
    intro c hc
    rw [collapseWs_head? (fun d hd => jsTrim_head hd)] at hc
    exact jsTrim_head hc
  have hlastm : ∀ c, (collapseWs (jsTrim a)).getLast? = some c → jsIsSpace c = false :=
    collapseWs_getLast? (fun d hd => jsTrim_last hd)
  have hheadw : ∀ c, (wordRep (collapseWs (jsTrim a))).head? = some c →
      jsIsSpace c = false := wordRep_head?_nonspace hheadm
  have hlastw : ∀ c, (wordRep (collapseWs (jsTrim a))).getLast? = some c →
      jsIsSpace c = false :=
    wordRep_getLast?_nonspace (collapseWs (jsTrim a)).length _ le_rfl hlastm
  rw [jsTrim_eq_self hheadw hlastw]
  rw [collapseWs_eq_self
    (wordRep_wsFixed (collapseWs (jsTrim a)).length _ le_rfl
      (wsFixed_collapseWs (jsTrim a)))]
  exact wordRep_idem (collapseWs (jsTrim a))

end ValidationJS

namespace NMTCJS

/-- ToInt32 of ECMAScript: wrap an integer into the interval from -2^31 to
2^31 - 1, as the bitwise operations of seededRandom do. -/
def toInt32 (z : Int) : Int := (z + 2 ^ 31) % 2 ^ 32 - 2 ^ 31

/-- One step of the string hash in NMTCService.seededRandom:
hash = ((hash << 5) - hash) + charCode, then hash = hash & hash, both
coercing through 32-bit integers. -/
def hashStep (h : Int) (code : Nat) : Int := toInt32 (toInt32 (h * 32) - h + code)

/-- The seed hash of the geoid string.  charCodeAt yields the UTF-16 code
unit, which for the ASCII digit strings used as geoids equals the scalar
value modeled here. -/
def hashString (geoid : List Char) : Int :=
  geoid.foldl (fun h c => hashStep h c.toNat) 0

/-- One step of the linear congruential generator inside the closure
returned by seededRandom; the JS % operator is the truncated remainder. -/
def lcgNext (h : Int) : Int := Int.tmod (h * 9301 + 49297) 233280

/-- The record produced by simulateCensusDemographics. -/
structure Demographics where
  povertyRate : Rat
  medianIncomeRatio : Rat
  inEmpowermentZone : Bool
  population : Int
  medianIncome : Int
deriving DecidableEq

/-- simulateCensusDemographics: five sequential draws of the seeded
generator, in the evaluation order of the object literal of the source. -/
def simulateCensusDemographics (geoid : List Char) : Demographics :=
  let h0 := hashString geoid
  let h1 := lcgNext h0
  let r1 : Rat := (h1 : Rat) / 233280
  let h2 := lcgNext h1
  let r2 : Rat := (h2 : Rat) / 233280
  let h3 := lcgNext h2
  let r3 : Rat := (h3 : Rat) / 233280
  let h4 := lcgNext h3
  let r4 : Rat := (h4 : Rat) / 233280
  let h5 := lcgNext h4
  let r5 : Rat := (h5 : Rat) / 233280
  { povertyRate := 5 + r1 * 35
    medianIncomeRatio := 2 / 5 + r2 * (3 / 5)
    inEmpowermentZone := decide (r3 < 1 / 10)
    population := Int.floor (1000 + r4 * 9000)
    medianIncome := Int.floor (25000 + r5 * 75000) }

/-- The qualifications sub-object of the criteria returned by
checkLowIncomeEligibility. -/
structure Qualifications where
  poverty : Bool
  income : Bool
  designation : Bool
deriving DecidableEq

/-- The eligibility verdict and criteria of checkLowIncomeEligibility
(the human-readable reason strings are omitted). -/
structure LICResult where
  eligible : Bool
  povertyRate : Rat
  medianIncomeRatio : Rat
  inEmpowermentZone : Bool
  qualifications : Qualifications
deriving DecidableEq

/-- checkLowIncomeEligibility: the three Low-Income-Community criteria
evaluated over the simulated demographics of the geoid. -/
def checkLowIncomeEligibility (geoid : List Char) : LICResult :=
  let demographics := simulateCensusDemographics geoid
  let qualifiesByPoverty := decide (demographics.povertyRate ≥ 20)
  let qualifiesByIncome := decide (demographics.medianIncomeRatio ≤ 4 / 5)
  let qualifiesByDesignation := demographics.inEmpowermentZone
  { eligible := qualifiesByPoverty || qualifiesByIncome || qualifiesByDesignation
    povertyRate := demographics.povertyRate
    medianIncomeRatio := demographics.medianIncomeRatio
    inEmpowermentZone := demographics.inEmpowermentZone
    qualifications :=
      { poverty := qualifiesByPoverty
        income := qualifiesByIncome
        designation := qualifiesByDesignation } }

/-- Claim C10: the NMTC low-income-community determination is
deterministic — two runs of simulateCensusDemographics (and hence
checkLowIncomeEligibility) on the same geoid produce identical
demographics and the same verdict, because the simulated randomness is
seeded purely by the geoid string; moreover the verdict is exactly the
disjunction of the poverty, income and designation criteria over those
demographics. -/
theorem claim_C10_determinism (g1 g2 : List Char) (h : g1 = g2) :
    simulateCensusDemographics g1 = simulateCensusDemographics g2
    ∧ checkLowIncomeEligibility g1 = checkLowIncomeEligibility g2
    ∧ ((checkLowIncomeEligibility g1).eligible = true ↔
        ((simulateCensusDemographics g1).povertyRate ≥ 20
          ∨ (simulateCensusDemographics g1).medianIncomeRatio ≤ 4 / 5
          ∨ (simulateCensusDemographics g1).inEmpowermentZone = true)) := by
  subst h
  refine ⟨rfl, rfl, ?_⟩
  simp [checkLowIncomeEligibility, Bool.or_eq_true, decide_eq_true_eq, or_assoc]

/-- Witness for claim C10: two runs on the concrete geoid 11001006202
agree, with the definitions actually evaluated on that input. -/
theorem claim_C10_determinism_witness :
    ("11001006202".toList = "11001006202".toList)
    ∧ (simulateCensusDemographics "11001006202".toList
        = simulateCensusDemographics "11001006202".toList
      ∧ checkLowIncomeEligibility "11001006202".toList
        = checkLowIncomeEligibility "11001006202".toList
      ∧ ((checkLowIncomeEligibility "11001006202".toList).eligible = true ↔
          ((simulateCensusDemographics "11001006202".toList).povertyRate ≥ 20
            ∨ (simulateCensusDemographics "11001006202".toList).medianIncomeRatio ≤ 4 / 5
            ∨ (simulateCensusDemographics "11001006202".toList).inEmpowermentZone = true))) :=
  ⟨rfl, claim_C10_determinism "11001006202".toList "11001006202".toList rfl⟩

end NMTCJS

namespace SBAJS

/-- Business attributes consumed by assessSBA504Eligibility; a missing
(undefined) field is none and takes the destructuring default of the
source. -/
structure BusinessInfo where
  employeeCount : Option Rat := none
  averageAnnualReceipts : Option Rat := none
  industry : Option String := none
  businessAge : Option Rat := none
  ownerEquity : Option Rat := none
  projectCost : Option Rat := none
  ownerOccupancy : Option Rat := none

/-- One row of the SBA size-standard table: employee cap and receipts cap;
null entries of the source are none. -/
structure SizeStandard where
  employees : Option Rat
  receipts : Option Rat

/-- The sizeStandards table of checkSizeStandards, with the default row
used for the key other and for unknown industries. -/
def sizeStandards (industry : String) : SizeStandard :=
  if industry = "retail" then ⟨some 500, some 8000000⟩
  else if industry = "manufacturing" then ⟨some 1500, none⟩
  else if industry = "construction" then ⟨none, some 42000000⟩
  else if industry = "professional_services" then ⟨none, some 8500000⟩
  else if industry = "real_estate" then ⟨none, some 8000000⟩
  else if industry = "hospitality" then ⟨none, some 8500000⟩
  else ⟨some 500, some 8000000⟩

/-- checkSizeStandards: fail when a present cap is exceeded; a null cap is
falsy in JS, so its check is skipped. -/
def checkSizeStandards (employees receipts : Rat) (industry : String) : Bool :=
  let standard := sizeStandards industry
  if (match standard.employees with
      | some cap => decide (employees > cap)
      | none => false) then false
  else if (match standard.receipts with
      | some cap => decide (receipts > cap)
      | none => false) then false
  else true

/-- The six entries of the eligibilityChecks object. -/
structure EligibilityChecks where
  sizeStandards : Bool
  businessAge : Bool
  ownerEquity : Bool
  ownerOccupancy : Bool
  creditworthiness : Bool
  jobCreation : Bool
deriving DecidableEq

/-- The eligibility verdict with its checks (the details and
recommendations sub-objects are derived views of the same checks). -/
structure Assessment where
  eligible : Bool
  checks : EligibilityChecks
deriving DecidableEq

/-- assessSBA504Eligibility: destructure with defaults, evaluate the six
checks, and require every single one of them for eligibility
(Object.values(...).every(check => check === true)). -/
def assessSBA504Eligibility (b : BusinessInfo) : Assessment :=
  let employeeCount := b.employeeCount.getD 0
  let averageAnnualReceipts := b.averageAnnualReceipts.getD 0
  let industry := b.industry.getD "other"
  let businessAge := b.businessAge.getD 0
  let ownerEquity := b.ownerEquity.getD 0
  let projectCost := b.projectCost.getD 0
  let ownerOccupancy := b.ownerOccupancy.getD 51
  let checks : EligibilityChecks :=
    { sizeStandards := checkSizeStandards employeeCount averageAnnualReceipts industry
      businessAge := decide (businessAge ≥ 2)
      ownerEquity := decide (ownerEquity ≥ projectCost * (10 / 100))
      ownerOccupancy := decide (ownerOccupancy ≥ 51)
      creditworthiness := true
      jobCreation := true }
  { eligible := checks.sizeStandards && checks.businessAge && checks.ownerEquity
      && checks.ownerOccupancy && checks.creditworthiness && checks.jobCreation
    checks := checks }

/-- Claim C5 counterexample: the claim says the checks the spec calls
critical (size standard, financial caps, job creation) suffice for
eligibility, with business age and owner occupancy merely informational.
With an empty businessInfo all those checks pass, yet the code reports
ineligible, because the businessAge >= 2 check participates in the
conjunction. -/
theorem claim_C5_counterexample :
    ((assessSBA504Eligibility {}).checks.sizeStandards = true
      ∧ (assessSBA504Eligibility {}).checks.ownerEquity = true
      ∧ (assessSBA504Eligibility {}).checks.creditworthiness = true
      ∧ (assessSBA504Eligibility {}).checks.jobCreation = true
      ∧ (assessSBA504Eligibility {}).checks.ownerOccupancy = true)
    ∧ (assessSBA504Eligibility {}).checks.businessAge = false
    ∧ (assessSBA504Eligibility {}).eligible = false := by
  refine ⟨⟨?_, ?_, ?_, ?_, ?_⟩, ?_, ?_⟩ <;>
    simp [assessSBA504Eligibility, checkSizeStandards, sizeStandards,
      decide_eq_true_eq, decide_eq_false_iff_not]

/-- Claim C5 as amended by the counterexample: SBA-504 eligibility is the
conjunction of ALL six checks — size standard, business age at least 2
years, owner equity at least 10 percent of project cost, owner occupancy
at least 51 percent, and the constant-true creditworthiness and
job-creation checks — so business age and owner occupancy do block
eligibility.  (The source has no use-of-funds check.) -/
theorem claim_C5_sba_eligibility (b : BusinessInfo) :
    ((assessSBA504Eligibility b).eligible = true ↔
      (checkSizeStandards (b.employeeCount.getD 0) (b.averageAnnualReceipts.getD 0)
          (b.industry.getD "other") = true
        ∧ b.businessAge.getD 0 ≥ 2
        ∧ b.ownerEquity.getD 0 ≥ b.projectCost.getD 0 * (10 / 100)
        ∧ b.ownerOccupancy.getD 51 ≥ 51))
    ∧ (assessSBA504Eligibility b).checks.creditworthiness = true
    ∧ (assessSBA504Eligibility b).checks.jobCreation = true := by
  refine ⟨?_, rfl, rfl⟩
  simp [assessSBA504Eligibility, Bool.and_eq_true, decide_eq_true_eq, and_assoc]

/-- Witness for claim C5: the amended equivalence evaluated at a concrete
businessInfo that passes every check. -/
theorem claim_C5_sba_eligibility_witness :
    ((assessSBA504Eligibility
        { industry := some "retail", businessAge := some 3,
          ownerEquity := some 200000, projectCost := some 2000000,
          ownerOccupancy := some 60 }).eligible = true ↔
      (checkSizeStandards 0 0 "retail" = true
        ∧ (3 : Rat) ≥ 2
        ∧ (200000 : Rat) ≥ 2000000 * (10 / 100)
        ∧ (60 : Rat) ≥ 51)) :=
  (claim_C5_sba_eligibility
    { industry := some "retail", businessAge := some 3,
      ownerEquity := some 200000, projectCost := some 2000000,
      ownerOccupancy := some 60 }).1

end SBAJS

namespace CREJS

/-- The five fixed program keys of the incentives mapping, in the literal
order of the analysis object built by analyzeProperty. -/
inductive ProgramKey where
  | opportunityZones
  | historicTaxCredits
  | newMarketsTC
  | cpace
  | sba504
deriving DecidableEq

/-- The display name each processResult call passes for its program. -/
def programName : ProgramKey → String
  | .opportunityZones => "Opportunity Zones"
  | .historicTaxCredits => "Historic Tax Credits"
  | .newMarketsTC => "New Markets Tax Credits"
  | .cpace => "C-PACE Financing"
  | .sba504 => "SBA 504 Loans"

/-- The federalHTC sub-object read by determineAvailability. -/
structure FederalHTC where
  eligible : Bool
deriving DecidableEq

/-- The fields of the heterogeneous evaluator payloads that
determineAvailability reads through optional chaining; an absent
(undefined) field is none.  The remaining payload fields are not read by
the orchestrator logic and are omitted. -/
structure ProgData where
  isOpportunityZone : Option Bool := none
  federalHTC : Option FederalHTC := none
  nmtcEligible : Option Bool := none
  cpaceAvailable : Option Bool := none
  eligible : Option Bool := none
deriving DecidableEq

/-- determineAvailability: switch on the program name, reading the
program-specific flag with null-safe access, any falsy value (missing
data, missing field, or false) giving false. -/
def determineAvailability (data : Option ProgData) (name : String) : Bool :=
  if name = "Opportunity Zones" then
    (data.bind (fun d => d.isOpportunityZone)).getD false
  else if name = "Historic Tax Credits" then
    ((data.bind (fun d => d.federalHTC)).map (fun f => f.eligible)).getD false
  else if name = "New Markets Tax Credits" then
    (data.bind (fun d => d.nmtcEligible)).getD false
  else if name = "C-PACE Financing" then
    (data.bind (fun d => d.cpaceAvailable)).getD false
  else if name = "SBA 504 Loans" then
    (data.bind (fun d => d.eligible)).getD false
  else false

/-- One normalized entry of the incentives mapping, as built by
processResult. -/
structure ProcessedResult where
  status : String
  data : Option ProgData
  error : Option String
  available : Bool
deriving DecidableEq

/-- processResult: a fulfilled evaluator yields a success entry carrying
its payload and the program-specific availability; a rejected one yields a
normalized error entry with the failure reason. -/
def processResult (result : Except String ProgData) (name : String) : ProcessedResult :=
  match result with
  | .ok value =>
    { status := "success", data := some value, error := none,
      available := determineAvailability (some value) name }
  | .error msg =>
    { status := "error", data := none, error := some msg, available := false }

/-- The incentives object of the analysis: one processed entry per fixed
program key. -/
structure Incentives where
  opportunityZones : ProcessedResult
  historicTaxCredits : ProcessedResult
  newMarketsTC : ProcessedResult
  cpace : ProcessedResult
  sba504 : ProcessedResult
deriving DecidableEq

/-- Object.entries of the incentives object, in literal order. -/
def incentivesList (inc : Incentives) : List (String × ProcessedResult) :=
  [("opportunityZones", inc.opportunityZones),
   ("historicTaxCredits", inc.historicTaxCredits),
   ("newMarketsTC", inc.newMarketsTC),
   ("cpace", inc.cpace),
   ("sba504", inc.sba504)]

/-- Projection of the incentives object at a program key. -/
def entryOf (inc : Incentives) : ProgramKey → ProcessedResult
  | .opportunityZones => inc.opportunityZones
  | .historicTaxCredits => inc.historicTaxCredits
  | .newMarketsTC => inc.newMarketsTC
  | .cpace => inc.cpace
  | .sba504 => inc.sba504

/-- analyzeProperty, orchestration part: the address must be a non-empty
string (it is a string by typing here), otherwise a ValidationError is
thrown before dispatch; the five evaluators are dispatched with
Promise.allSettled, so each settles independently with a value or a reason
— the settled outcomes are the second argument — and the incentives
mapping applies processResult to each outcome.  Everything after the
dispatch is total, so a non-empty address always yields an analysis. -/
def analyzeProperty (address : String)
    (outcomes : ProgramKey → Except String ProgData) : Except String Incentives :=
  if address = "" then Except.error "Valid address is required"
  else Except.ok
    { opportunityZones :=
        processResult (outcomes .opportunityZones) (programName .opportunityZones)
      historicTaxCredits :=
        processResult (outcomes .historicTaxCredits) (programName .historicTaxCredits)
      newMarketsTC :=
        processResult (outcomes .newMarketsTC) (programName .newMarketsTC)
      cpace :=
        processResult (outcomes .cpace) (programName .cpace)
      sba504 :=
        processResult (outcomes .sba504) (programName .sba504) }

/-- Claim C2: for every non-empty address, analyzeProperty succeeds and
its incentives mapping has exactly the five fixed program keys; each
program's entry is processResult of that program's own settled outcome, so
a rejected evaluator yields a normalized error entry (status error,
available false, null data) while every fulfilled sibling keeps its
success entry; and the entry of a program is unchanged when its own
outcome is unchanged, whatever happens to the other evaluators. -/
theorem claim_C2_isolation (address : String)
    (outcomes outcomes' : ProgramKey → Except String ProgData)
    (h : address ≠ "") :
    (∃ inc, analyzeProperty address outcomes = Except.ok inc
      ∧ (incentivesList inc).map Prod.fst
          = ["opportunityZones", "historicTaxCredits", "newMarketsTC", "cpace", "sba504"]
      ∧ (∀ k, entryOf inc k = processResult (outcomes k) (programName k))
      ∧ (∀ k msg, outcomes k = Except.error msg →
          entryOf inc k
            = { status := "error", data := none, error := some msg, available := false })
      ∧ (∀ k value, outcomes k = Except.ok value →
          entryOf inc k
            = { status := "success", data := some value, error := none,
                available := determineAvailability (some value) (programName k) }))
    ∧ (∀ k, outcomes k = outcomes' k →
        ∀ inc inc', analyzeProperty address outcomes = Except.ok inc →
          analyzeProperty address outcomes' = Except.ok inc' →
          entryOf inc k = entryOf inc' k) := by
  constructor
  · rw [analyzeProperty, if_neg h]
    refine ⟨_, rfl, rfl, ?_, ?_, ?_⟩
    · intro k
      cases k <;> rfl
    · intro k msg hk
      cases k <;> simp [entryOf, processResult, hk]
    · intro k value hk
      cases k <;> simp [entryOf, processResult, hk]
  · intro k hk inc inc' hinc hinc'
    rw [analyzeProperty, if_neg h] at hinc hinc'
    simp only [Except.ok.injEq] at hinc hinc'
    subst hinc
    subst hinc'
    cases k <;> simp [entryOf, hk]

/-- A concrete assignment of settled outcomes: the Opportunity Zones
evaluator rejects and the other four fulfill. -/
def sampleOutcomes : ProgramKey → Except String ProgData
  | .opportunityZones => Except.error "Network error: geocoding unreachable"
  | .historicTaxCredits => Except.ok { federalHTC := some { eligible := true } }
  | .newMarketsTC => Except.ok { nmtcEligible := some true }
  | .cpace => Except.ok { cpaceAvailable := some false }
  | .sba504 => Except.ok { eligible := some true }

/-- Witness for claim C2: the theorem applied to a concrete address and
the concrete outcome assignment where exactly one evaluator fails. -/
theorem claim_C2_isolation_witness :
    ("1600 Pennsylvania Avenue, Washington, DC 20500" ≠ "")
    ∧ ((∃ inc, analyzeProperty "1600 Pennsylvania Avenue, Washington, DC 20500"
            sampleOutcomes = Except.ok inc
        ∧ (incentivesList inc).map Prod.fst
            = ["opportunityZones", "historicTaxCredits", "newMarketsTC", "cpace", "sba504"]
        ∧ (∀ k, entryOf inc k = processResult (sampleOutcomes k) (programName k))
        ∧ (∀ k msg, sampleOutcomes k = Except.error msg →
            entryOf inc k
              = { status := "error", data := none, error := some msg, available := false })
        ∧ (∀ k value, sampleOutcomes k = Except.ok value →
            entryOf inc k
              = { status := "success", data := some value, error := none,
                  available := determineAvailability (some value) (programName k) }))
      ∧ (∀ k, sampleOutcomes k = sampleOutcomes k →
          ∀ inc inc', analyzeProperty "1600 Pennsylvania Avenue, Washington, DC 20500"
              sampleOutcomes = Except.ok inc →
            analyzeProperty "1600 Pennsylvania Avenue, Washington, DC 20500"
              sampleOutcomes = Except.ok inc' →
            entryOf inc k = entryOf inc' k)) :=
  ⟨by decide,
    claim_C2_isolation "1600 Pennsylvania Avenue, Washington, DC 20500"
      sampleOutcomes sampleOutcomes (by decide)⟩

end CREJS

namespace CREJS

/-- One recommendation record; the fields are the literal strings of
generateRecommendations. -/
structure Recommendation where
  priority : String
  program : String
  action : String
  timeline : String
  benefit : String
  requirements : List String
deriving DecidableEq

/-- The Opportunity Zones recommendation pushed by generateRecommendations. -/
def ozRecommendation : Recommendation :=
  { priority := "High", program := "Opportunity Zones",
    action := "Structure investment through Qualified Opportunity Fund",
    timeline := "Must invest within 180 days of capital gain",
    benefit := "Up to 15% reduction in deferred gains + tax-free appreciation",
    requirements := ["Substantial improvement of existing buildings",
      "Hold investment for 10+ years"] }

/-- The Historic Tax Credits recommendation pushed by generateRecommendations. -/
def htcRecommendation : Recommendation :=
  { priority := "High", program := "Historic Tax Credits",
    action := "Apply for Part 1 certification before starting work",
    timeline := "Begin application process immediately",
    benefit := "20% federal tax credit on qualified rehabilitation costs",
    requirements := ["Meet Secretary of Interior Standards",
      "Substantial rehabilitation required"] }

/-- The New Markets Tax Credits recommendation pushed by generateRecommendations. -/
def nmtcRecommendation : Recommendation :=
  { priority := "Medium", program := "New Markets Tax Credits",
    action := "Contact local CDEs for funding availability",
    timeline := "6-12 months for structuring and closing",
    benefit := "39% tax credit over 7 years",
    requirements := ["Located in Low-Income Community", "Meet CDE investment criteria"] }

/-- The SBA 504 recommendation pushed by generateRecommendations. -/
def sbaRecommendation : Recommendation :=
  { priority := "Medium", program := "SBA 504 Loans",
    action := "Contact Certified Development Company",
    timeline := "3-6 months for approval and closing",
    benefit := "Fixed-rate financing with only 10% down payment",
    requirements := ["Owner occupancy", "Job creation/retention", "2+ years in business"] }

/-- The C-PACE recommendation pushed by generateRecommendations. -/
def cpaceRecommendation : Recommendation :=
  { priority := "Low", program := "C-PACE Financing",
    action := "Conduct energy audit to identify eligible improvements",
    timeline := "2-4 months for approval and implementation",
    benefit := "100% financing for energy improvements",
    requirements := ["Energy savings analysis", "Permanently affixed improvements"] }

/-- The fallback recommendation pushed when no program is available. -/
def alternativeRecommendation : Recommendation :=
  { priority := "Medium", program := "Alternative Financing",
    action := "Explore conventional financing and local incentives",
    timeline := "Ongoing",
    benefit := "Market-rate financing options",
    requirements := ["Standard underwriting criteria"] }

/-- The priorityOrder map of the sort comparator; only High, Medium and
Low occur among generated recommendations (in JS a missing key would give
NaN, which is unreachable here). -/
def priorityOrder : String → Int
  | "High" => 3
  | "Medium" => 2
  | "Low" => 1
  | _ => 0

/-- Insert a recommendation into a descending-sorted list after every
entry of greater-or-equal weight.  Together with sortByPriorityDesc this
is a stable descending sort — the behavior of the stable
Array.prototype.sort with comparator priorityOrder[b] - priorityOrder[a]. -/
def insertByPriority (r : Recommendation) : List Recommendation → List Recommendation
  | [] => [r]
  | x :: xs =>
    if priorityOrder x.priority ≤ priorityOrder r.priority then r :: x :: xs
    else x :: insertByPriority r xs

/-- Stable insertion sort by descending priority weight. -/
def sortByPriorityDesc : List Recommendation → List Recommendation
  | [] => []
  | x :: xs => insertByPriority x (sortByPriorityDesc xs)

/-- generateRecommendations: derive the available program keys from the
incentives entries, push one fixed recommendation per available program in
source order (oz, htc, nmtc, sba504, cpace), fall back to the single
alternative-financing recommendation when none was pushed, and sort by
descending priority weight (stable). -/
def generateRecommendations (inc : Incentives) : List Recommendation :=
  let availableIncentives :=
    ((incentivesList inc).filter (fun p => p.2.available)).map Prod.fst
  let recs :=
    (if availableIncentives.contains "opportunityZones" then [ozRecommendation] else [])
    ++ (if availableIncentives.contains "historicTaxCredits" then [htcRecommendation] else [])
    ++ (if availableIncentives.contains "newMarketsTC" then [nmtcRecommendation] else [])
    ++ (if availableIncentives.contains "sba504" then [sbaRecommendation] else [])
    ++ (if availableIncentives.contains "cpace" then [cpaceRecommendation] else [])
  let recs := if recs.isEmpty then [alternativeRecommendation] else recs
  sortByPriorityDesc recs

/-- The order in which generateRecommendations pushes per-program
recommendations; it coincides with descending priority order. -/
def pushOrder : List ProgramKey :=
  [.opportunityZones, .historicTaxCredits, .newMarketsTC, .sba504, .cpace]

/-- The fixed recommendation pushed for each program key. -/
def recommendationFor : ProgramKey → Recommendation
  | .opportunityZones => ozRecommendation
  | .historicTaxCredits => htcRecommendation
  | .newMarketsTC => nmtcRecommendation
  | .sba504 => sbaRecommendation
  | .cpace => cpaceRecommendation

theorem ozRecommendation_priority : ozRecommendation.priority = "High" := rfl

theorem htcRecommendation_priority : htcRecommendation.priority = "High" := rfl

theorem nmtcRecommendation_priority : nmtcRecommendation.priority = "Medium" := rfl

theorem sbaRecommendation_priority : sbaRecommendation.priority = "Medium" := rfl

theorem cpaceRecommendation_priority : cpaceRecommendation.priority = "Low" := rfl

theorem alternativeRecommendation_priority : alternativeRecommendation.priority = "Medium" := rfl

theorem ozRecommendation_program : ozRecommendation.program = "Opportunity Zones" := rfl

theorem htcRecommendation_program : htcRecommendation.program = "Historic Tax Credits" := rfl

theorem nmtcRecommendation_program : nmtcRecommendation.program = "New Markets Tax Credits" := rfl

theorem sbaRecommendation_program : sbaRecommendation.program = "SBA 504 Loans" := rfl

theorem cpaceRecommendation_program : cpaceRecommendation.program = "C-PACE Financing" := rfl

theorem priorityOrder_high : priorityOrder "High" = 3 := rfl

theorem priorityOrder_medium : priorityOrder "Medium" = 2 := rfl

theorem priorityOrder_low : priorityOrder "Low" = 1 := rfl

theorem contains_oz (inc : Incentives) :
    ((((incentivesList inc).filter (fun p => p.2.available)).map Prod.fst).contains
      "opportunityZones") = inc.opportunityZones.available := by
  cases h : inc.opportunityZones.available <;>
    simp [incentivesList, List.filter_cons, h, List.contains] <;>
    (try split_ifs) <;> simp_all

theorem contains_htc (inc : Incentives) :
    ((((incentivesList inc).filter (fun p => p.2.available)).map Prod.fst).contains
      "historicTaxCredits") = inc.historicTaxCredits.available := by
  cases h : inc.historicTaxCredits.available <;>
    simp [incentivesList, List.filter_cons, h, List.contains] <;>
    split_ifs <;> simp

theorem contains_nmtc (inc : Incentives) :
    ((((incentivesList inc).filter (fun p => p.2.available)).map Prod.fst).contains
      "newMarketsTC") = inc.newMarketsTC.available := by
  cases h : inc.newMarketsTC.available <;>
    simp [incentivesList, List.filter_cons, h, List.contains] <;>
    split_ifs <;> simp

theorem contains_cpace (inc : Incentives) :
    ((((incentivesList inc).filter (fun p => p.2.available)).map Prod.fst).contains
      "cpace") = inc.cpace.available := by
  cases h : inc.cpace.available <;>
    simp [incentivesList, List.filter_cons, h, List.contains] <;>
    split_ifs <;> simp

theorem contains_sba (inc : Incentives) :
    ((((incentivesList inc).filter (fun p => p.2.available)).map Prod.fst).contains
      "sba504") = inc.sba504.available := by
  cases h : inc.sba504.available <;>
    simp [incentivesList, List.filter_cons, h, List.contains] <;>
    split_ifs <;> simp

theorem generateRecommendations_explicit (inc : Incentives) :
    generateRecommendations inc =
      sortByPriorityDesc
        (if ((if inc.opportunityZones.available then [ozRecommendation] else [])
            ++ (if inc.historicTaxCredits.available then [htcRecommendation] else [])
            ++ (if inc.newMarketsTC.available then [nmtcRecommendation] else [])
            ++ (if inc.sba504.available then [sbaRecommendation] else [])
            ++ (if inc.cpace.available then [cpaceRecommendation] else [])).isEmpty
         then [alternativeRecommendation]
         else (if inc.opportunityZones.available then [ozRecommendation] else [])
            ++ (if inc.historicTaxCredits.available then [htcRecommendation] else [])
            ++ (if inc.newMarketsTC.available then [nmtcRecommendation] else [])
            ++ (if inc.sba504.available then [sbaRecommendation] else [])
            ++ (if inc.cpace.available then [cpaceRecommendation] else [])) := by
  unfold generateRecommendations
  simp only [contains_oz, contains_htc, contains_nmtc, contains_sba, contains_cpace]

/-- Claim C4: generateRecommendations emits exactly one fixed-priority
recommendation per available program (Opportunity Zones and Historic Tax
Credits High, New Markets TC and SBA-504 Medium, C-PACE Low), in an order
that is descending by priority weight with ties kept in enumeration order
(the resulting list equals the push-order list filtered to the available
programs); with no program available it emits exactly the single
alternative-financing fallback; the output is always sorted descending by
priority weight; and for available programs C-PACE, SBA-504 and
Opportunity Zones the order is Opportunity Zones, then SBA-504, then
C-PACE. -/
theorem claim_C4_recommendation_order (inc : Incentives) :
    (((entryOf inc .opportunityZones).available
        || (entryOf inc .historicTaxCredits).available
        || (entryOf inc .newMarketsTC).available
        || (entryOf inc .cpace).available
        || (entryOf inc .sba504).available) = false →
      generateRecommendations inc = [alternativeRecommendation])
    ∧ (((entryOf inc .opportunityZones).available
        || (entryOf inc .historicTaxCredits).available
        || (entryOf inc .newMarketsTC).available
        || (entryOf inc .cpace).available
        || (entryOf inc .sba504).available) = true →
      generateRecommendations inc
        = (pushOrder.filter (fun k => (entryOf inc k).available)).map recommendationFor)
    ∧ (generateRecommendations inc).Pairwise
        (fun a b => priorityOrder b.priority ≤ priorityOrder a.priority)
    ∧ ((entryOf inc .opportunityZones).available = true →
        (entryOf inc .historicTaxCredits).available = false →
        (entryOf inc .newMarketsTC).available = false →
        (entryOf inc .cpace).available = true →
        (entryOf inc .sba504).available = true →
        (generateRecommendations inc).map (fun r => (r.program, r.priority))
          = [("Opportunity Zones", "High"), ("SBA 504 Loans", "Medium"),
             ("C-PACE Financing", "Low")]) := by
  obtain ⟨o, ht, nm, cp, sb⟩ := inc
  cases ho : o.available <;> cases hht : ht.available <;> cases hnm : nm.available <;>
    cases hcp : cp.available <;> cases hsb : sb.available <;>
    refine ⟨?_, ?_, ?_, ?_⟩ <;>
    simp [generateRecommendations_explicit, entryOf, ho, hht, hnm, hcp, hsb,
      sortByPriorityDesc, insertByPriority, pushOrder, recommendationFor,
      List.filter_cons, ozRecommendation_priority, htcRecommendation_priority,
      nmtcRecommendation_priority, sbaRecommendation_priority,
      cpaceRecommendation_priority, alternativeRecommendation_priority,
      ozRecommendation_program, htcRecommendation_program,
      nmtcRecommendation_program, sbaRecommendation_program,
      cpaceRecommendation_program, priorityOrder_high, priorityOrder_medium,
      priorityOrder_low, List.pairwise_cons]

/-- A concrete incentives object whose available programs are exactly
Opportunity Zones, C-PACE and SBA-504. -/
def ozCpaceSbaIncentives : Incentives :=
  { opportunityZones :=
      { status := "success", data := some { isOpportunityZone := some true },
        error := none, available := true }
    historicTaxCredits :=
      { status := "success", data := some {}, error := none, available := false }
    newMarketsTC :=
      { status := "success", data := some {}, error := none, available := false }
    cpace :=
      { status := "success", data := some { cpaceAvailable := some true },
        error := none, available := true }
    sba504 :=
      { status := "success", data := some { eligible := some true },
        error := none, available := true } }

/-- Witness for claim C4: the ordering conclusion evaluated at the
concrete incentives with available programs C-PACE, SBA-504 and
Opportunity Zones. -/
theorem claim_C4_recommendation_order_witness :
    ((entryOf ozCpaceSbaIncentives .opportunityZones).available = true
      ∧ (entryOf ozCpaceSbaIncentives .historicTaxCredits).available = false
      ∧ (entryOf ozCpaceSbaIncentives .newMarketsTC).available = false
      ∧ (entryOf ozCpaceSbaIncentives .cpace).available = true
      ∧ (entryOf ozCpaceSbaIncentives .sba504).available = true)
    ∧ (generateRecommendations ozCpaceSbaIncentives).map (fun r => (r.program, r.priority))
        = [("Opportunity Zones", "High"), ("SBA 504 Loans", "Medium"),
           ("C-PACE Financing", "Low")] :=
  ⟨⟨by decide, by decide, by decide, by decide, by decide⟩,
    (claim_C4_recommendation_order ozCpaceSbaIncentives).2.2.2
      (by decide) (by decide) (by decide) (by decide) (by decide)⟩

end CREJS

namespace CREJS

/-- The conventional-financing scenario record of calculateBaseCase. -/
structure BaseCase where
  projectCost : Rat
  downPayment : Rat
  loanAmount : Rat
  interestRate : Rat
  monthlyPayment : Int
  totalInterest : Int
  totalCost : Int
deriving DecidableEq

/-- Math.round: round to nearest integer, half toward positive infinity. -/
def jsRound (q : Rat) : Int := Int.floor (q + 1 / 2)

/-- calculateBaseCase: 25 percent down, 75 percent loan at 7 percent over
20 years with the standard annuity formula.  (The source computes in
binary floating point; this model is exact rational arithmetic.  The
claims do not depend on the rounded values of this function.) -/
def calculateBaseCase (projectCost : Rat) : BaseCase :=
  let downPayment := projectCost * 0.25
  let loanAmount := projectCost * 0.75
  let interestRate : Rat := 0.07
  let monthlyRate := interestRate / 12
  let payments : Nat := 20 * 12
  let monthlyPayment := loanAmount * (monthlyRate * (1 + monthlyRate) ^ payments)
      / ((1 + monthlyRate) ^ payments - 1)
  { projectCost := projectCost
    downPayment := downPayment
    loanAmount := loanAmount
    interestRate := interestRate
    monthlyPayment := jsRound monthlyPayment
    totalInterest := jsRound (monthlyPayment * (payments : Rat) - loanAmount)
    totalCost := jsRound (downPayment + monthlyPayment * (payments : Rat)) }

/-- The incentive-adjusted scenario record of calculateWithIncentives
(the estimatedROI display string is omitted). -/
structure WithIncentives where
  projectCost : Rat
  taxCredits : Rat
  interestSavings : Rat
  netProjectCost : Rat
deriving DecidableEq

/-- calculateWithIncentives: walk the incentives entries (order oz, htc,
nmtc, cpace, sba504) and accumulate the switch contributions of the
available programs; adjustedCost is never mutated, so netProjectCost is
projectCost minus the accumulated tax credits. -/
def calculateWithIncentives (projectCost : Rat) (inc : Incentives) : WithIncentives :=
  let taxCredits : Rat :=
    (if inc.historicTaxCredits.available then projectCost * 0.20 else 0)
    + (if inc.newMarketsTC.available then projectCost * 0.25 * 0.39 else 0)
  let interestSavings : Rat :=
    (if inc.cpace.available then 25000 else 0)
    + (if inc.sba504.available then 50000 else 0)
  { projectCost := projectCost
    taxCredits := taxCredits
    interestSavings := interestSavings
    netProjectCost := projectCost - taxCredits }

/-- The comparison record of compareScenarios (the savingsPercentage
display string is omitted; the string category 'N/A' of paybackPeriod is
none). -/
structure Comparison where
  totalSavings : Int
  paybackPeriod : Option Int
  recommendation : String
deriving DecidableEq

/-- compareScenarios: savings is the exact difference between the base
case total cost and the incentive-adjusted net project cost; totalSavings
is its Math.round; the recommendation thresholds are applied to the
unrounded savings. -/
def compareScenarios (baseCase : BaseCase) (withIncentives : WithIncentives) : Comparison :=
  let savings : Rat := (baseCase.totalCost : Rat) - withIncentives.netProjectCost
  { totalSavings := jsRound savings
    paybackPeriod :=
      if savings > 0 then some (jsRound (withIncentives.taxCredits / 50000)) else none
    recommendation :=
      if savings > 100000 then "Strongly Recommended"
      else if savings > 50000 then "Recommended"
      else "Consider Carefully" }

theorem jsRound_intCast (z : Int) : jsRound ((z : Int) : Rat) = z := by
  unfold jsRound
  refine Int.floor_eq_iff.mpr ⟨by norm_num, ?_⟩
  linarith

/-- An incentives object with exactly Historic Tax Credits available. -/
def htcOnlyIncentives : Incentives :=
  { opportunityZones :=
      { status := "success", data := some { isOpportunityZone := some false },
        error := none, available := false }
    historicTaxCredits :=
      { status := "success", data := some { federalHTC := some { eligible := true } },
        error := none, available := true }
    newMarketsTC :=
      { status := "success", data := some { nmtcEligible := some false },
        error := none, available := false }
    cpace :=
      { status := "success", data := some { cpaceAvailable := some false },
        error := none, available := false }
    sba504 :=
      { status := "success", data := some { eligible := some false },
        error := none, available := false } }

/-- An incentives object with exactly Historic Tax Credits and SBA-504
available. -/
def htcSbaIncentives : Incentives :=
  { htcOnlyIncentives with
    sba504 :=
      { status := "success", data := some { eligible := some true },
        error := none, available := true } }

/-- An incentives object with exactly SBA-504 available. -/
def sbaOnlyIncentives : Incentives :=
  { htcOnlyIncentives with
    historicTaxCredits :=
      { status := "success", data := some { federalHTC := some { eligible := false } },
        error := none, available := false }
    sba504 :=
      { status := "success", data := some { eligible := some true },
        error := none, available := true } }

/-- A concrete base case; compareScenarios reads only its totalCost. -/
def sampleBaseCase : BaseCase :=
  { projectCost := 1000001, downPayment := 250000.25, loanAmount := 750000.75,
    interestRate := 0.07, monthlyPayment := 5815, totalInterest := 645614,
    totalCost := 2000000 }

/-- Claim C8 counterexample: the claim states
totalSavings = baseCase.totalCost - withIncentives.netProjectCost exactly.
With project cost 1000001 and Historic Tax Credits available, the tax
credit is 200000.2, netProjectCost is 800000.8, and the code rounds
(Math.round) the difference, so totalSavings differs from the exact
difference by 0.2 dollars. -/
theorem claim_C8_counterexample :
    (((compareScenarios sampleBaseCase
          (calculateWithIncentives 1000001 htcOnlyIncentives)).totalSavings : Rat)
      ≠ (sampleBaseCase.totalCost : Rat)
        - (calculateWithIncentives 1000001 htcOnlyIncentives).netProjectCost) := by
  norm_num [compareScenarios, calculateWithIncentives, jsRound, sampleBaseCase,
    htcOnlyIncentives]

/-- Claim C8 as amended by the counterexample: totalSavings is the
Math.round of baseCase.totalCost - withIncentives.netProjectCost, and the
recommendation strength thresholds (greater than 100000 Strongly
Recommended, greater than 50000 Recommended, otherwise Consider Carefully)
are applied to the unrounded difference; whenever that difference is a
whole number of dollars, totalSavings equals it exactly and the thresholds
coincide with thresholds on totalSavings as the claim states.  The
scenario part holds as claimed: with Historic Tax Credits and SBA-504
available and project cost 2000000, taxCredits is 0.20 x 2000000 = 400000,
contributed by Historic Tax Credits alone (SBA-504 contributes 50000 of
interest savings and no tax credits), and netProjectCost is
2000000 - 400000. -/
theorem claim_C8_financial (baseCase : BaseCase) (wi : WithIncentives) :
    ((compareScenarios baseCase wi).totalSavings
        = jsRound ((baseCase.totalCost : Rat) - wi.netProjectCost))
    ∧ ((compareScenarios baseCase wi).recommendation
        = if (baseCase.totalCost : Rat) - wi.netProjectCost > 100000 then "Strongly Recommended"
          else if (baseCase.totalCost : Rat) - wi.netProjectCost > 50000 then "Recommended"
          else "Consider Carefully")
    ∧ (∀ z : Int, (baseCase.totalCost : Rat) - wi.netProjectCost = (z : Rat) →
        ((compareScenarios baseCase wi).totalSavings : Rat)
            = (baseCase.totalCost : Rat) - wi.netProjectCost
        ∧ (compareScenarios baseCase wi).recommendation
            = (if (compareScenarios baseCase wi).totalSavings > 100000 then "Strongly Recommended"
               else if (compareScenarios baseCase wi).totalSavings > 50000 then "Recommended"
               else "Consider Carefully"))
    ∧ (calculateWithIncentives 2000000 htcSbaIncentives).taxCredits = 400000
    ∧ (calculateWithIncentives 2000000 htcSbaIncentives).taxCredits
        = (calculateWithIncentives 2000000 htcOnlyIncentives).taxCredits
    ∧ (calculateWithIncentives 2000000 sbaOnlyIncentives).taxCredits = 0
    ∧ (calculateWithIncentives 2000000 sbaOnlyIncentives).interestSavings = 50000
    ∧ (calculateWithIncentives 2000000 htcSbaIncentives).netProjectCost
        = 2000000 - 400000 := by
  refine ⟨rfl, rfl, ?_, ?_, ?_, ?_, ?_, ?_⟩
  · intro z hz
    have hts : (compareScenarios baseCase wi).totalSavings = z := by
      show jsRound ((baseCase.totalCost : Rat) - wi.netProjectCost) = z
      rw [hz, jsRound_intCast]
    constructor
    · show ((jsRound ((baseCase.totalCost : Rat) - wi.netProjectCost)) : Rat)
          = (baseCase.totalCost : Rat) - wi.netProjectCost
      rw [hz, jsRound_intCast]
    · rw [hts]
      show (if (baseCase.totalCost : Rat) - wi.netProjectCost > 100000 then "Strongly Recommended"
            else if (baseCase.totalCost : Rat) - wi.netProjectCost > 50000 then "Recommended"
            else "Consider Carefully")
          = (if z > 100000 then "Strongly Recommended"
             else if z > 50000 then "Recommended"
             else "Consider Carefully")
      rw [hz]
      have hcast1 : (((z : Int) : Rat) > 100000) ↔ (z > 100000) := by
        exact_mod_cast Iff.rfl
      have hcast2 : (((z : Int) : Rat) > 50000) ↔ (z > 50000) := by
        exact_mod_cast Iff.rfl
      by_cases h1 : z > 100000
      · rw [if_pos (hcast1.mpr h1), if_pos h1]
      · rw [if_neg (fun hh => h1 (hcast1.mp hh)), if_neg h1]
        by_cases h2 : z > 50000
        · rw [if_pos (hcast2.mpr h2), if_pos h2]
        · rw [if_neg (fun hh => h2 (hcast2.mp hh)), if_neg h2]
  · norm_num [calculateWithIncentives, htcSbaIncentives, htcOnlyIncentives]
  · norm_num [calculateWithIncentives, htcSbaIncentives, htcOnlyIncentives]
  · norm_num [calculateWithIncentives, sbaOnlyIncentives, htcOnlyIncentives]
  · norm_num [calculateWithIncentives, sbaOnlyIncentives, htcOnlyIncentives]
  · norm_num [calculateWithIncentives, htcSbaIncentives, htcOnlyIncentives]

/-- A concrete base case with a whole-dollar savings difference for the
witness. -/
def witnessBaseCase : BaseCase :=
  { projectCost := 1000000, downPayment := 250000, loanAmount := 750000,
    interestRate := 0.07, monthlyPayment := 5816, totalInterest := 645718,
    totalCost := 2000000 }

/-- Witness for claim C8: the whole-dollar part of the amended claim
evaluated at project cost 1000000 with Historic Tax Credits available,
where the savings difference is exactly 1200000. -/
theorem claim_C8_financial_witness :
    ((witnessBaseCase.totalCost : Rat)
        - (calculateWithIncentives 1000000 htcOnlyIncentives).netProjectCost
        = ((1200000 : Int) : Rat))
    ∧ (((compareScenarios witnessBaseCase
            (calculateWithIncentives 1000000 htcOnlyIncentives)).totalSavings : Rat)
          = (witnessBaseCase.totalCost : Rat)
            - (calculateWithIncentives 1000000 htcOnlyIncentives).netProjectCost
      ∧ (compareScenarios witnessBaseCase
            (calculateWithIncentives 1000000 htcOnlyIncentives)).recommendation
          = (if (compareScenarios witnessBaseCase
                  (calculateWithIncentives 1000000 htcOnlyIncentives)).totalSavings > 100000
             then "Strongly Recommended"
             else if (compareScenarios witnessBaseCase
                  (calculateWithIncentives 1000000 htcOnlyIncentives)).totalSavings > 50000
             then "Recommended"
             else "Consider Carefully")) :=
  ⟨by norm_num [calculateWithIncentives, htcOnlyIncentives, witnessBaseCase],
    (claim_C8_financial witnessBaseCase
        (calculateWithIncentives 1000000 htcOnlyIncentives)).2.2.1 1200000
      (by norm_num [calculateWithIncentives, htcOnlyIncentives, witnessBaseCase])⟩

end CREJS
